import Mathlib

/-!
Verification of the creature-plans pipeline (`parsecreature.py` /
`chunkanalyzer.py`) against its natural-language specification.

The embedding models Python strings as `List Char`, JSON values as an
inductive `Json` type (JSON text parsing itself is out of scope: a file's
content is `Option Json`, `none` standing for text that `json.load`
rejects), raised-and-caught Python exceptions as `Except Unit`, and
`datetime` values as a record of calendar fields.  All definitions are
executable and follow the Python source line by line.
-/

namespace CreaturePlans

/-- Python strings, modelled as lists of characters. -/
abbrev Str := List Char

/-- Python `str.strip()`: remove leading and trailing whitespace. -/
def pyStrip (s : Str) : Str :=
  ((s.dropWhile Char.isWhitespace).reverse.dropWhile Char.isWhitespace).reverse

/-- Python `needle in hay` on strings: contiguous-substring containment. -/
def containsSub (needle : Str) : Str → Bool
  | [] => needle.isEmpty
  | c :: rest => needle.isPrefixOf (c :: rest) || containsSub needle rest

/-- The long excluded literal from `CreaturePlanParser.__init__`. -/
def excludedLiteral : Str := "Exploring system dynamics and adaptation patterns".data

/-- The list `self.excluded_content` from `CreaturePlanParser.__init__`. -/
def excluded_content : List Str := [excludedLiteral, "plan_".data]

/-- Embedding of `CreaturePlanParser.should_exclude_content`:
`any(excluded in content for excluded in self.excluded_content)`. -/
def should_exclude_content (content : Str) : Bool :=
  excluded_content.any (fun e => containsSub e content)

/-- JSON values as produced by `json.load`.  Numbers are carried as
rationals; the pipeline never computes with them, only copies them. -/
inductive Json where
  | null : Json
  | bool : Bool → Json
  | num : Rat → Json
  | str : Str → Json
  | arr : List Json → Json
  | obj : List (Str × Json) → Json

/-- First-match lookup in a JSON object's field list (Python `dict` access;
JSON objects from `json.load` have unique keys, later keys would win in
Python but the embedding only receives unique-key objects). -/
def jlookup : List (Str × Json) → Str → Option Json
  | [], _ => none
  | (k, v) :: t, key => if k = key then some v else jlookup t key

/-- Python `thought[key]` (raises unless `thought` is a dict with the key). -/
def getField (j : Json) (key : Str) : Except Unit Json :=
  match j with
  | .obj fields =>
    match jlookup fields key with
    | some v => .ok v
    | none => .error ()
  | _ => .error ()

/-- Python `thought[key]` followed by a string method: raises unless the
value exists and is a string. -/
def getStr (j : Json) (key : Str) : Except Unit Str :=
  match getField j key with
  | .ok (.str s) => .ok s
  | _ => .error ()

/-- Python `plan_data.get(key)` on a dict: the value, or `None` (→ JSON
`null`) when absent.  Only ever reached on objects. -/
def pyGet (j : Json) (key : Str) : Json :=
  match j with
  | .obj fields =>
    match jlookup fields key with
    | some v => v
    | none => .null
  | _ => .null

/-- A parsed `datetime.datetime` value (what `strptime` returns). -/
structure DateTime where
  year : Nat
  month : Nat
  day : Nat
  hour : Nat
  minute : Nat
  second : Nat
  microsecond : Nat
deriving DecidableEq, Repr

/-- Numeric value of a decimal digit character. -/
def digitVal (c : Char) : Nat := c.toNat - '0'.toNat

/-- Value of a string of decimal digits. -/
def natOfDigits (ds : Str) : Nat := ds.foldl (fun n c => n * 10 + digitVal c) 0

/-- Field `%Y` of `_strptime`: exactly four digits. -/
def parseYear : Str → Option (Nat × Str)
  | a :: b :: c :: d :: rest =>
    if a.isDigit && b.isDigit && c.isDigit && d.isDigit then
      some (natOfDigits [a, b, c, d], rest)
    else none
  | _ => none

/-- A literal character of the format string. -/
def lit (c : Char) : Str → Option Str
  | x :: rest => if x = c then some rest else none
  | [] => none

/-- Field `%m` of `_strptime`: regex `1[0-2]|0[1-9]|[1-9]`, alternatives tried in
order (each field here is followed by a non-digit literal, so ordered
committed choice coincides with regex backtracking). -/
def parseMonth : Str → Option (Nat × Str)
  | a :: b :: rest =>
    if a = '1' && (b = '0' || b = '1' || b = '2') then some (10 + digitVal b, rest)
    else if a = '0' && b.isDigit && b ≠ '0' then some (digitVal b, rest)
    else if a.isDigit && a ≠ '0' then some (digitVal a, b :: rest)
    else none
  | [a] => if a.isDigit && a ≠ '0' then some (digitVal a, []) else none
  | [] => none

/-- Field `%d` of `_strptime`: regex `3[01]|[12]\d|0[1-9]|[1-9]`. -/
def parseDay : Str → Option (Nat × Str)
  | a :: b :: rest =>
    if a = '3' && (b = '0' || b = '1') then some (30 + digitVal b, rest)
    else if (a = '1' || a = '2') && b.isDigit then some (digitVal a * 10 + digitVal b, rest)
    else if a = '0' && b.isDigit && b ≠ '0' then some (digitVal b, rest)
    else if a.isDigit && a ≠ '0' then some (digitVal a, b :: rest)
    else none
  | [a] => if a.isDigit && a ≠ '0' then some (digitVal a, []) else none
  | [] => none

/-- Field `%H` of `_strptime`: regex `2[0-3]|[0-1]\d|\d`. -/
def parseHour : Str → Option (Nat × Str)
  | a :: b :: rest =>
    if a = '2' && (b = '0' || b = '1' || b = '2' || b = '3') then some (20 + digitVal b, rest)
    else if (a = '0' || a = '1') && b.isDigit then some (digitVal a * 10 + digitVal b, rest)
    else if a.isDigit then some (digitVal a, b :: rest)
    else none
  | [a] => if a.isDigit then some (digitVal a, []) else none
  | [] => none

/-- Field `%M` of `_strptime`: regex `[0-5]\d|\d`. -/
def parseMinute : Str → Option (Nat × Str)
  | a :: b :: rest =>
    if (a = '0' || a = '1' || a = '2' || a = '3' || a = '4' || a = '5') && b.isDigit then
      some (digitVal a * 10 + digitVal b, rest)
    else if a.isDigit then some (digitVal a, b :: rest)
    else none
  | [a] => if a.isDigit then some (digitVal a, []) else none
  | [] => none

/-- Field `%S` of `_strptime`: regex `6[0-1]|[0-5]\d|\d` (leap seconds are matched
by the regex but rejected later by the `datetime` constructor). -/
def parseSecond : Str → Option (Nat × Str)
  | a :: b :: rest =>
    if a = '6' && (b = '0' || b = '1') then some (60 + digitVal b, rest)
    else if (a = '0' || a = '1' || a = '2' || a = '3' || a = '4' || a = '5') && b.isDigit then
      some (digitVal a * 10 + digitVal b, rest)
    else if a.isDigit then some (digitVal a, b :: rest)
    else none
  | [a] => if a.isDigit then some (digitVal a, []) else none
  | [] => none

/-- Field `%f` of `_strptime`: regex `[0-9]{1,6}`, right-padded with zeros to
six digits to give microseconds.  Greedily consumes up to six digits; with
seven or more digits the following literal `Z` then fails on a digit, which
is also what regex backtracking yields since `Z` never matches a digit. -/
def parseFrac (s : Str) : Option (Nat × Str) :=
  let ds := (s.takeWhile Char.isDigit).take 6
  if ds.length = 0 then none
  else some (natOfDigits ds * 10 ^ (6 - ds.length), s.drop ds.length)

/-- Gregorian leap-year rule (as in Python's `datetime`). -/
def isLeap (y : Nat) : Bool := (y % 4 = 0 && y % 100 ≠ 0) || y % 400 = 0

/-- Days in a month (as in Python's `datetime`). -/
def daysInMonth (y m : Nat) : Nat :=
  if m = 2 then (if isLeap y then 29 else 28)
  else if m = 4 || m = 6 || m = 9 || m = 11 then 30
  else 31

/-- Validity checks performed by the `datetime.datetime` constructor after
the regex match (the regex already bounds month, hour and minute). -/
def validDate (dt : DateTime) : Bool :=
  1 ≤ dt.year && dt.year ≤ 9999 && dt.day ≤ daysInMonth dt.year dt.month && dt.second ≤ 59

/-- Embedding of `datetime.strptime(s, "%Y-%m-%dT%H:%M:%S.%fZ")`: regex match of the
whole string followed by `datetime` construction. -/
def strptimeFmt (s : Str) : Except Unit DateTime :=
  match parseYear s with
  | none => .error ()
  | some (y, s) =>
  match lit '-' s with
  | none => .error ()
  | some s =>
  match parseMonth s with
  | none => .error ()
  | some (mo, s) =>
  match lit '-' s with
  | none => .error ()
  | some s =>
  match parseDay s with
  | none => .error ()
  | some (d, s) =>
  match lit 'T' s with
  | none => .error ()
  | some s =>
  match parseHour s with
  | none => .error ()
  | some (h, s) =>
  match lit ':' s with
  | none => .error ()
  | some s =>
  match parseMinute s with
  | none => .error ()
  | some (mi, s) =>
  match lit ':' s with
  | none => .error ()
  | some s =>
  match parseSecond s with
  | none => .error ()
  | some (sec, s) =>
  match lit '.' s with
  | none => .error ()
  | some s =>
  match parseFrac s with
  | none => .error ()
  | some (us, s) =>
  match lit 'Z' s with
  | none => .error ()
  | some s =>
  if s.isEmpty then
    let dt : DateTime := ⟨y, mo, d, h, mi, sec, us⟩
    if validDate dt then .ok dt else .error ()
  else .error ()

/-- Python `s.split('.')`, always returning at least one part. -/
def splitDotAux (cur : Str) : Str → List Str
  | [] => [cur.reverse]
  | c :: t => if c = '.' then cur.reverse :: splitDotAux [] t else splitDotAux (c :: cur) t

/-- Python `s.split('.')`. -/
def splitDot (s : Str) : List Str := splitDotAux [] s

/-- The fractional-part preprocessing of `CreaturePlanParser.parse_timestamp`:
when the string contains a dot, `main_part, fractional = s.split('.')`
(raising unless there are exactly two parts), drop every `Z` from the
fraction, keep at most six digits and re-append a literal `Z`. -/
def preprocessTs (s : Str) : Except Unit Str :=
  if '.' ∈ s then
    match splitDot s with
    | [mainPart, fractional] =>
      .ok (mainPart ++ '.' :: ((fractional.filter (fun c => c ≠ 'Z')).take 6 ++ ['Z']))
    | _ => .error ()
  else .ok s

/-- Embedding of `CreaturePlanParser.parse_timestamp`. -/
def parse_timestamp (s : Str) : Except Unit DateTime :=
  match preprocessTs s with
  | .error e => .error e
  | .ok s' => strptimeFmt s'

/-- The `ThoughtData` dataclass.  `real_time_factors` and the two scores
are stored exactly as read (Python performs no runtime type check on
dataclass fields), hence they stay raw `Json`. -/
structure ThoughtData where
  timestamp : DateTime
  content : Str
  real_time_factors : Json
  relevance_score : Json
  confidence_score : Json

/-- Digits of `n`, most significant first. -/
def natToStr (n : Nat) : Str := Nat.toDigits 10 n

/-- Zero-pad on the left to width `w`. -/
def padLeft (w : Nat) (n : Nat) : Str :=
  let ds := natToStr n
  List.replicate (w - ds.length) '0' ++ ds

/-- Python `str(datetime)`: `YYYY-MM-DD HH:MM:SS` with a `.ffffff` tail
exactly when the microsecond field is nonzero. -/
def strDatetime (dt : DateTime) : Str :=
  padLeft 4 dt.year ++ '-' :: padLeft 2 dt.month ++ '-' :: padLeft 2 dt.day ++
    ' ' :: padLeft 2 dt.hour ++ ':' :: padLeft 2 dt.minute ++ ':' :: padLeft 2 dt.second ++
    (if dt.microsecond = 0 then [] else '.' :: padLeft 6 dt.microsecond)

/-- Mixed-radix encoding of a `DateTime`; strictly monotone with respect to
(and injective on) Python's field-lexicographic `datetime` order on the
values `strptime` can produce (month ≤ 12, day ≤ 31, hour ≤ 23,
minute ≤ 59, second ≤ 59, microsecond < 10^6). -/
def tsKey (dt : DateTime) : Nat :=
  (((((dt.year * 13 + dt.month) * 32 + dt.day) * 24 + dt.hour) * 60 + dt.minute) * 60 +
      dt.second) * 1000000 + dt.microsecond

/-- Stable insertion step: `x` goes in front of the first element whose key
is not smaller.  Matches the unique output of any stable key sort, hence of
Python's Timsort, when applied by `sortK` below. -/
def insertK (k : α → Int) (x : α) : List α → List α
  | [] => [x]
  | y :: ys => if k x ≤ k y then x :: y :: ys else y :: insertK k x ys

/-- Stable sort by key `k`, ascending (`list.sort(key=k)`): elements are
inserted from the right, so earlier elements end up before later elements
with equal keys. -/
def sortK (k : α → Int) : List α → List α
  | [] => []
  | x :: xs => insertK k x (sortK k xs)

/-- One thought in a serialized Plan Document (timestamp rendered back to a
display string by `str(t.timestamp)`). -/
structure RenderedThought where
  timestamp : Str
  content : Str
  real_time_factors : Json
  relevance_score : Json
  confidence_score : Json

/-- Serialization of one sorted `ThoughtData` inside `parse_single_plan`'s
returned dictionary. -/
def renderThought (t : ThoughtData) : RenderedThought :=
  ⟨strDatetime t.timestamp, t.content, t.real_time_factors, t.relevance_score,
    t.confidence_score⟩

/-- The dictionary `parse_single_plan` returns for a file that keeps at
least one thought. -/
structure PlanDoc where
  plan_id : Json
  folder : Str
  file_name : Str
  thoughts : List RenderedThought

/-- Embedding of `plan_data.get("thoughts", [])` followed by the `for` loop's demand
that the value be iterable with dict elements: an absent key yields the
empty default; a list yields its elements; iterating an empty string or an
empty dict performs zero iterations; iterating any other value raises
(`TypeError` on non-iterables, or on subscripting the string/key elements
produced by a non-empty string/dict), which the per-file handler turns
into a skipped file. -/
def getThoughtsList (j : Json) : Except Unit (List Json) :=
  match j with
  | .obj fields =>
    match jlookup fields "thoughts".data with
    | none => .ok []
    | some (.arr l) => .ok l
    | some (.str s) => if s.isEmpty then .ok [] else .error ()
    | some (.obj fs) => if fs.isEmpty then .ok [] else .error ()
    | some _ => .error ()
  | _ => .error ()

/-- The body of the inner `try` of `parse_single_plan`: build a
`ThoughtData` from one thought; any missing field or timestamp failure is
an inner exception (observation skipped). -/
def innerThought (t : Json) (strippedContent : Str) : Except Unit ThoughtData :=
  match getStr t "timestamp".data with
  | .error e => .error e
  | .ok tsStr =>
  match parse_timestamp tsStr with
  | .error e => .error e
  | .ok ts =>
  match getField t "real_time_factors".data with
  | .error e => .error e
  | .ok rtf =>
  match getField t "relevance_score".data with
  | .error e => .error e
  | .ok rs =>
  match getField t "confidence_score".data with
  | .error e => .error e
  | .ok cs => .ok ⟨ts, strippedContent, rtf, rs, cs⟩

/-- One iteration of the thought loop.  `thought["content"].strip()` is
evaluated outside the inner `try`: its failure is an uncaught exception
(`Except.error`, aborting the whole file), while `.ok none` means the
thought was excluded or its inner construction failed (skipped). -/
def processThought (t : Json) : Except Unit (Option ThoughtData) :=
  match getStr t "content".data with
  | .error e => .error e
  | .ok c =>
    if should_exclude_content (pyStrip c) then .ok none
    else
      match innerThought t (pyStrip c) with
      | .ok td => .ok (some td)
      | .error _ => .ok none

/-- The whole thought loop: surviving thoughts in input order. -/
def processThoughts : List Json → Except Unit (List ThoughtData)
  | [] => .ok []
  | t :: rest =>
    match processThought t with
    | .error e => .error e
    | .ok none => processThoughts rest
    | .ok (some td) =>
      match processThoughts rest with
      | .error e => .error e
      | .ok l => .ok (td :: l)

/-- Sort key used by `thoughts.sort(key=lambda x: x.timestamp)`. -/
def thoughtKey (t : ThoughtData) : Int := (tsKey t.timestamp : Int)

/-- The `try` block of `parse_single_plan`: `none` content means
`json.load` raised, any other uncaught failure is `Except.error`. -/
def parse_single_plan_body (folder fileName : Str) (content : Option Json) :
    Except Unit (Option PlanDoc) :=
  match content with
  | none => .error ()
  | some planData =>
    match getThoughtsList planData with
    | .error e => .error e
    | .ok tl =>
      match processThoughts tl with
      | .error e => .error e
      | .ok kept =>
        let sorted := sortK thoughtKey kept
        if sorted.isEmpty then .ok none
        else
          .ok (some ⟨pyGet planData "id".data, folder, fileName, sorted.map renderThought⟩)

/-- Embedding of `CreaturePlanParser.parse_single_plan`: the catch-all handler prints
the error and returns `None`. -/
def parse_single_plan (folder fileName : Str) (content : Option Json) : Option PlanDoc :=
  match parse_single_plan_body folder fileName content with
  | .ok r => r
  | .error _ => none

/-- One immediate subdirectory of the input root, with its `*.json` files
in `glob` enumeration order.  A file's content is `none` when `json.load`
would reject its text. -/
structure PDir where
  name : Str
  files : List (Str × Option Json)

/-- The result dictionary of `parse_all_plans`. -/
structure FullResults where
  plans : List (Str × List (Str × PlanDoc))
  total_directories : Nat
  total_plans : Nat
  base_directory : Str
  processed_at : Str
  errors : List Str

/-- Whether `natOfDigits` applies: a non-empty all-digit string. -/
def allDigits (ds : Str) : Option Nat :=
  if ds.isEmpty then none
  else if ds.all Char.isDigit then some (natOfDigits ds) else none

/-- Python `int(s)` on a string: strip whitespace, optional sign, decimal
digits; anything else raises `ValueError`. -/
def pyInt (s : Str) : Option Int :=
  match pyStrip s with
  | '+' :: ds => (allDigits ds).map Int.ofNat
  | '-' :: ds => (allDigits ds).map (fun n => -(n : Int))
  | ds => (allDigits ds).map Int.ofNat

/-- The `str(e)` of the `ValueError` raised by `int(name)`. -/
def intErrMsg (name : Str) : Str :=
  "invalid literal for int() with base 10: '".data ++ name ++ ['\x27']

/-- Embedding of `directories.sort(key=lambda x: int(x.name))`: it computes every key in
list order before comparing, so the first non-integer name raises. -/
def keyDirs : List PDir → Except Str (List (Int × PDir))
  | [] => .ok []
  | d :: rest =>
    match pyInt d.name with
    | none => .error (intErrMsg d.name)
    | some k =>
      match keyDirs rest with
      | .error m => .error m
      | .ok l => .ok ((k, d) :: l)

/-- The inner file loop of `parse_all_plans` for one directory: the
per-file `try/except` is unreachable because `parse_single_plan` never
raises, so the loop just keeps the non-`None` documents keyed by file
name, in enumeration order. -/
def processDir (d : PDir) : List (Str × PlanDoc) :=
  d.files.filterMap (fun f => (parse_single_plan d.name f.1 f.2).map (fun doc => (f.1, doc)))

/-- Embedding of `CreaturePlanParser.parse_all_plans`, parameterized by the ambient
`datetime.now().isoformat()` string and the root path.  When the numeric
directory sort raises, the `except` branch leaves `all_plans` empty and
records the single directory-level error. -/
def parse_all_plans (now root : Str) (dirs : List PDir) : FullResults :=
  match keyDirs dirs with
  | .error m =>
    { plans := [], total_directories := 0, total_plans := 0, base_directory := root,
      processed_at := now, errors := ["Directory error: ".data ++ m] }
  | .ok keyed =>
    let sortedDirs := (sortK (fun p => p.1) keyed).map (fun p => p.2)
    let allPlans := sortedDirs.filterMap (fun d =>
      let dp := processDir d
      if dp.isEmpty then none else some (d.name, dp))
    { plans := allPlans
      total_directories := allPlans.length
      total_plans := (allPlans.map (fun p => p.2.length)).sum
      base_directory := root
      processed_at := now
      errors := [] }

/-- The condensed record for one Plan Document's thought list: keep a
`(c, r)` pair unless the re-stripped content is exactly the long excluded
literal. -/
def condenseDoc (doc : PlanDoc) : List (Str × Json) :=
  doc.thoughts.filterMap (fun th =>
    if pyStrip th.content = excludedLiteral then none
    else some (pyStrip th.content, th.real_time_factors))

/-- Embedding of `CreaturePlanParser.create_condensed_output`: flatten the Full
Aggregate in directory-then-file insertion order. -/
def create_condensed_output (results : FullResults) : List (Str × Json) :=
  results.plans.flatMap (fun dp => dp.2.flatMap (fun fp => condenseDoc fp.2))

/-- Serialization of the Short Aggregate written to
`parsed_plans_short.json` and read back by the Analyzer. -/
def condensedToJson (condensed : List (Str × Json)) : Json :=
  .arr (condensed.map (fun p => .obj [("c".data, .str p.1), ("r".data, p.2)]))

/-- An insertion-ordered counter (`collections.Counter` is a dict subclass:
first occurrence of a key fixes its position, later bumps keep it). -/
def bump : List (Str × Nat) → Str → List (Str × Nat)
  | [], key => [(key, 1)]
  | (k, n) :: t, key => if k = key then (k, n + 1) :: t else (k, n) :: bump t key

/-- Lookup `counter[k]`: the stored count, zero when the key is absent. -/
def lookupCount : List (Str × Nat) → Str → Nat
  | [], _ => 0
  | (k, n) :: t, key => if k = key then n else lookupCount t key

/-- Embedding of `for factor in thought["r"]`: a list yields its elements which must be
strings (`.strip()` raises otherwise); iterating a string yields its
one-character substrings, a dict its keys; other values raise. -/
def getFactors (t : Json) : Except Unit (List Str) :=
  match getField t "r".data with
  | .error e => .error e
  | .ok (.arr l) =>
    l.foldr (fun v acc =>
      match v, acc with
      | .str s, .ok ss => .ok (s :: ss)
      | _, _ => .error ()) (.ok [])
  | .ok (.str s) => .ok (s.map (fun c => [c]))
  | .ok (.obj fs) => .ok (fs.map (fun p => p.1))
  | .ok _ => .error ()

/-- The counting loop of `ContentAnalyzer.analyze_file` over the decoded
input, threading both counters; any field failure aborts the run. -/
def analyzeLoop : List Json → List (Str × Nat) → List (Str × Nat) →
    Except Unit (List (Str × Nat) × List (Str × Nat))
  | [], cc, fc => .ok (cc, fc)
  | t :: rest, cc, fc =>
    match getStr t "c".data with
    | .error e => .error e
    | .ok c =>
      match getFactors t with
      | .error e => .error e
      | .ok factors =>
        analyzeLoop rest (bump cc (pyStrip c))
          (factors.foldl (fun acc f => bump acc (pyStrip f)) fc)

/-- Embedding of `ContentAnalyzer.analyze_file` on the decoded input file: `for thought
in data` demands an iterable whose elements are subscriptable dicts. -/
def analyze_file (data : Json) : Except Unit (List (Str × Nat) × List (Str × Nat)) :=
  match data with
  | .arr thoughts => analyzeLoop thoughts [] []
  | .str s => if s.isEmpty then .ok ([], []) else .error ()
  | .obj fs => if fs.isEmpty then .ok ([], []) else .error ()
  | _ => .error ()

/-- Embedding of `sorted(counter.items(), key=lambda x: x[1], reverse=True)`: a stable
sort descending by count, i.e. ascending by negated count. -/
def sortCounts (c : List (Str × Nat)) : List (Str × Nat) :=
  sortK (fun p => -(p.2 : Int)) c

/-- The two ordered mappings built by `ContentAnalyzer.save_results`. -/
def save_results (cc fc : List (Str × Nat)) : List (Str × Nat) × List (Str × Nat) :=
  (sortCounts cc, sortCounts fc)

/-! ### Generic facts about the stable key sort -/

theorem mem_insertK (k : α → Int) (x a : α) (l : List α) :
    a ∈ insertK k x l ↔ a = x ∨ a ∈ l := by
  induction l with
  | nil => simp [insertK]
  | cons y ys ih =>
    simp only [insertK]
    split
    · simp
    · simp only [List.mem_cons, ih]
      tauto

theorem length_insertK (k : α → Int) (x : α) (l : List α) :
    (insertK k x l).length = l.length + 1 := by
  induction l with
  | nil => rfl
  | cons y ys ih =>
    simp only [insertK]
    split
    · simp
    · simp [ih]

theorem length_sortK (k : α → Int) (l : List α) : (sortK k l).length = l.length := by
  induction l with
  | nil => rfl
  | cons x xs ih => simp [sortK, length_insertK, ih]

theorem sortK_eq_nil_iff (k : α → Int) (l : List α) : sortK k l = [] ↔ l = [] := by
  constructor
  · intro h
    have := length_sortK k l
    rw [h] at this
    exact List.length_eq_zero.mp this.symm
  · intro h
    subst h
    rfl

theorem mem_sortK (k : α → Int) (a : α) (l : List α) : a ∈ sortK k l ↔ a ∈ l := by
  induction l with
  | nil => simp [sortK]
  | cons x xs ih => simp [sortK, mem_insertK, ih]

theorem pairwise_insertK (k : α → Int) (x : α) (l : List α)
    (h : l.Pairwise (fun a b => k a ≤ k b)) :
    (insertK k x l).Pairwise (fun a b => k a ≤ k b) := by
  induction l with
  | nil => simp [insertK]
  | cons y ys ih =>
    rw [List.pairwise_cons] at h
    simp only [insertK]
    split
    · rename_i hxy
      refine List.pairwise_cons.mpr ⟨?_, List.pairwise_cons.mpr h⟩
      intro b hb
      rcases List.mem_cons.mp hb with rfl | hb
      · exact hxy
      · exact le_trans hxy (h.1 b hb)
    · rename_i hxy
      refine List.pairwise_cons.mpr ⟨?_, ih h.2⟩
      intro b hb
      rcases (mem_insertK k x b ys).mp hb with rfl | hb
      · exact le_of_lt (lt_of_not_le hxy)
      · exact h.1 b hb

theorem pairwise_sortK (k : α → Int) (l : List α) :
    (sortK k l).Pairwise (fun a b => k a ≤ k b) := by
  induction l with
  | nil => simp [sortK]
  | cons x xs ih => exact pairwise_insertK k x _ ih

theorem filter_insertK_pos (k : α → Int) (q : α → Bool) (x : α) (l : List α)
    (hx : q x = true) (hlt : ∀ y, k y < k x → q y = false) :
    (insertK k x l).filter q = x :: l.filter q := by
  induction l with
  | nil => simp [insertK, hx]
  | cons y ys ih =>
    simp only [insertK]
    split
    · simp [List.filter_cons, hx]
    · rename_i hxy
      have hy : q y = false := hlt y (lt_of_not_le hxy)
      simp [List.filter_cons, hy, ih]

theorem filter_insertK_neg (k : α → Int) (q : α → Bool) (x : α) (l : List α)
    (hx : q x = false) :
    (insertK k x l).filter q = l.filter q := by
  induction l with
  | nil => simp [insertK, hx]
  | cons y ys ih =>
    simp only [insertK]
    split
    · simp [List.filter_cons, hx]
    · simp [List.filter_cons, ih]

/-- Stability of the key sort: elements selected by a predicate that pins
down the key value keep their exact relative input order. -/
theorem filter_sortK (k : α → Int) (q : α → Bool) (l : List α)
    (hq : ∀ a b, q a = true → q b = true → k a = k b) :
    (sortK k l).filter q = l.filter q := by
  induction l with
  | nil => rfl
  | cons x xs ih =>
    simp only [sortK]
    cases hx : q x with
    | true =>
      rw [filter_insertK_pos k q x _ hx, ih, List.filter_cons_of_pos hx]
      intro y hy
      cases hqy : q y with
      | true => exact absurd (hq y x hqy hx) (ne_of_lt hy)
      | false => rfl
    | false =>
      rw [filter_insertK_neg k q x _ hx, ih, List.filter_cons_of_neg (by simp [hx])]

theorem insertK_map (k1 : α → Int) (k2 : β → Int) (f : α → β)
    (hk : ∀ a, k2 (f a) = k1 a) (x : α) (l : List α) :
    insertK k2 (f x) (l.map f) = (insertK k1 x l).map f := by
  induction l with
  | nil => rfl
  | cons y ys ih =>
    simp only [List.map_cons, insertK, hk]
    split
    · rfl
    · simp [ih]

theorem sortK_map (k1 : α → Int) (k2 : β → Int) (f : α → β)
    (hk : ∀ a, k2 (f a) = k1 a) (l : List α) :
    sortK k2 (l.map f) = (sortK k1 l).map f := by
  induction l with
  | nil => rfl
  | cons x xs ih => simp [sortK, ih, insertK_map k1 k2 f hk]

/-! ### The spec's concrete two-observation scenario -/

/-- The single input file of the spec's concrete scenario. -/
def scenarioJson : Json := .obj [("thoughts".data, .arr [
  .obj [("timestamp".data, .str "2024-01-01T00:00:00.123456789Z".data),
        ("content".data, .str " hello ".data),
        ("real_time_factors".data, .arr [.str "a".data, .str "b".data]),
        ("relevance_score".data, .num 0.5),
        ("confidence_score".data, .num 0.9)],
  .obj [("timestamp".data, .str "2024-01-01T00:00:01Z".data),
        ("content".data, .str "plan_x".data),
        ("real_time_factors".data, .arr [.str "a".data]),
        ("relevance_score".data, .num 0.1),
        ("confidence_score".data, .num 0.1)]])]

/-- Directory `1/` holding that one file. -/
def scenarioDirs : List PDir := [⟨"1".data, [("f.json".data, some scenarioJson)]⟩]

/-- C8: on the spec's concrete two-observation input (directory `1/`, one
file, a nanosecond-precision `" hello "` observation and a `"plan_x"`
observation), the Full Aggregate holds exactly one observation with
content `"hello"` under that directory and file, the Short Aggregate is
exactly `[{"c": "hello", "r": ["a", "b"]}]`, and the Analyzer on that
Short Aggregate counts `{"hello": 1}` for contents and `{"a": 1, "b": 1}`
for factors (also after the descending re-ordering of `save_results`). -/
theorem c8_scenario :
    (parse_all_plans [] [] scenarioDirs).plans =
      [("1".data, [("f.json".data,
        { plan_id := Json.null, folder := "1".data, file_name := "f.json".data,
          thoughts := [⟨"2024-01-01 00:00:00.123456".data, "hello".data,
            Json.arr [.str "a".data, .str "b".data], Json.num 0.5, Json.num 0.9⟩] })])] ∧
    create_condensed_output (parse_all_plans [] [] scenarioDirs) =
      [("hello".data, Json.arr [.str "a".data, .str "b".data])] ∧
    analyze_file (condensedToJson (create_condensed_output (parse_all_plans [] [] scenarioDirs))) =
      .ok ([("hello".data, 1)], [("a".data, 1), ("b".data, 1)]) ∧
    save_results [("hello".data, 1)] [("a".data, 1), ("b".data, 1)] =
      ([("hello".data, 1)], [("a".data, 1), ("b".data, 1)]) :=
  ⟨rfl, rfl, rfl, rfl⟩

/-! ### Facts about `split('.')` and the `strptime` format -/

theorem splitDotAux_no_dot (l : Str) (acc : Str) (h : '.' ∉ l) :
    splitDotAux acc l = [acc.reverse ++ l] := by
  induction l generalizing acc with
  | nil => simp [splitDotAux]
  | cons c t ih =>
    have hc : c ≠ '.' := fun hc => h (hc ▸ List.mem_cons_self c t)
    have ht : '.' ∉ t := fun ht => h (List.mem_cons_of_mem c ht)
    simp [splitDotAux, hc, ih _ ht]

theorem splitDotAux_dot (p f : Str) (acc : Str) (hp : '.' ∉ p) :
    splitDotAux acc (p ++ '.' :: f) = (acc.reverse ++ p) :: splitDotAux [] f := by
  induction p generalizing acc with
  | nil => simp [splitDotAux]
  | cons c t ih =>
    have hc : c ≠ '.' := fun hc => hp (hc ▸ List.mem_cons_self c t)
    have ht : '.' ∉ t := fun ht => hp (List.mem_cons_of_mem c ht)
    have e : splitDotAux acc ((c :: t) ++ '.' :: f) = splitDotAux (c :: acc) (t ++ '.' :: f) := by
      simp [splitDotAux, hc]
    rw [e, ih (c :: acc) ht]
    simp

theorem splitDot_pair (p f : Str) (hp : '.' ∉ p) (hf : '.' ∉ f) :
    splitDot (p ++ '.' :: f) = [p, f] := by
  unfold splitDot
  rw [splitDotAux_dot p f [] hp, splitDotAux_no_dot f [] hf]
  simp

theorem lit_suffix {c : Char} {s r : Str} (h : lit c s = some r) : r <:+ s := by
  cases s with
  | nil => simp [lit] at h
  | cons x t =>
    by_cases hx : x = c
    · have e : lit c (x :: t) = some t := by simp [lit, hx]
      rw [e] at h
      injection h with h
      subst h
      exact List.suffix_cons x t
    · have e : lit c (x :: t) = none := by simp [lit, hx]
      rw [e] at h
      cases h

theorem parseYear_suffix {s : Str} {v : Nat} {r : Str} (h : parseYear s = some (v, r)) :
    r <:+ s := by
  cases s with
  | nil => simp [parseYear] at h
  | cons a s =>
  cases s with
  | nil => simp [parseYear] at h
  | cons b s =>
  cases s with
  | nil => simp [parseYear] at h
  | cons c s =>
  cases s with
  | nil => simp [parseYear] at h
  | cons d rest =>
  have e : parseYear (a :: b :: c :: d :: rest) =
      if (a.isDigit && b.isDigit && c.isDigit && d.isDigit) = true then
        some (natOfDigits [a, b, c, d], rest)
      else none := rfl
  rw [e] at h
  split at h
  · injection h with h
    injection h with h1 h2
    subst h2
    exact ((((List.suffix_cons d rest).trans (List.suffix_cons c _)).trans
      (List.suffix_cons b _)).trans (List.suffix_cons a _))
  · cases h

theorem twoDigitField_suffix
    (p : Str → Option (Nat × Str))
    (hshape : ∀ a b rest v r, p (a :: b :: rest) = some (v, r) → r = rest ∨ r = b :: rest)
    (hone : ∀ a v r, p [a] = some (v, r) → r = [])
    (hnil : p [] = none)
    {s : Str} {v : Nat} {r : Str} (h : p s = some (v, r)) : r <:+ s := by
  cases s with
  | nil =>
    rw [hnil] at h
    cases h
  | cons a s0 =>
  cases s0 with
  | nil =>
    rw [hone a v r h]
    exact List.nil_suffix
  | cons b rest =>
    rcases hshape a b rest v r h with he | he
    · rw [he]
      exact (List.suffix_cons b rest).trans (List.suffix_cons a _)
    · rw [he]
      exact List.suffix_cons a (b :: rest)

theorem parseMonth_suffix {s : Str} {v : Nat} {r : Str} (h : parseMonth s = some (v, r)) :
    r <:+ s := by
  refine twoDigitField_suffix parseMonth ?_ ?_ rfl h
  · intro a b rest v r h
    have e : parseMonth (a :: b :: rest) =
        if a = '1' && (b = '0' || b = '1' || b = '2') then some (10 + digitVal b, rest)
        else if a = '0' && b.isDigit && b ≠ '0' then some (digitVal b, rest)
        else if a.isDigit && a ≠ '0' then some (digitVal a, b :: rest)
        else none := rfl
    rw [e] at h
    split at h
    · injection h with h
      injection h with h1 h2
      exact Or.inl h2.symm
    · split at h
      · injection h with h
        injection h with h1 h2
        exact Or.inl h2.symm
      · split at h
        · injection h with h
          injection h with h1 h2
          exact Or.inr h2.symm
        · cases h
  · intro a v r h
    have e : parseMonth [a] =
        if a.isDigit && a ≠ '0' then some (digitVal a, []) else none := rfl
    rw [e] at h
    split at h
    · injection h with h
      injection h with h1 h2
      exact h2.symm
    · cases h

theorem parseDay_suffix {s : Str} {v : Nat} {r : Str} (h : parseDay s = some (v, r)) :
    r <:+ s := by
  refine twoDigitField_suffix parseDay ?_ ?_ rfl h
  · intro a b rest v r h
    have e : parseDay (a :: b :: rest) =
        if a = '3' && (b = '0' || b = '1') then some (30 + digitVal b, rest)
        else if (a = '1' || a = '2') && b.isDigit then some (digitVal a * 10 + digitVal b, rest)
        else if a = '0' && b.isDigit && b ≠ '0' then some (digitVal b, rest)
        else if a.isDigit && a ≠ '0' then some (digitVal a, b :: rest)
        else none := rfl
    rw [e] at h
    split at h
    · injection h with h
      injection h with h1 h2
      exact Or.inl h2.symm
    · split at h
      · injection h with h
        injection h with h1 h2
        exact Or.inl h2.symm
      · split at h
        · injection h with h
          injection h with h1 h2
          exact Or.inl h2.symm
        · split at h
          · injection h with h
            injection h with h1 h2
            exact Or.inr h2.symm
          · cases h
  · intro a v r h
    have e : parseDay [a] =
        if a.isDigit && a ≠ '0' then some (digitVal a, []) else none := rfl
    rw [e] at h
    split at h
    · injection h with h
      injection h with h1 h2
      exact h2.symm
    · cases h

theorem parseHour_suffix {s : Str} {v : Nat} {r : Str} (h : parseHour s = some (v, r)) :
    r <:+ s := by
  refine twoDigitField_suffix parseHour ?_ ?_ rfl h
  · intro a b rest v r h
    have e : parseHour (a :: b :: rest) =
        if a = '2' && (b = '0' || b = '1' || b = '2' || b = '3') then some (20 + digitVal b, rest)
        else if (a = '0' || a = '1') && b.isDigit then some (digitVal a * 10 + digitVal b, rest)
        else if a.isDigit then some (digitVal a, b :: rest)
        else none := rfl
    rw [e] at h
    split at h
    · injection h with h
      injection h with h1 h2
      exact Or.inl h2.symm
    · split at h
      · injection h with h
        injection h with h1 h2
        exact Or.inl h2.symm
      · split at h
        · injection h with h
          injection h with h1 h2
          exact Or.inr h2.symm
        · cases h
  · intro a v r h
    have e : parseHour [a] =
        if a.isDigit then some (digitVal a, []) else none := rfl
    rw [e] at h
    split at h
    · injection h with h
      injection h with h1 h2
      exact h2.symm
    · cases h

theorem parseMinute_suffix {s : Str} {v : Nat} {r : Str} (h : parseMinute s = some (v, r)) :
    r <:+ s := by
  refine twoDigitField_suffix parseMinute ?_ ?_ rfl h
  · intro a b rest v r h
    have e : parseMinute (a :: b :: rest) =
        if (a = '0' || a = '1' || a = '2' || a = '3' || a = '4' || a = '5') && b.isDigit then
          some (digitVal a * 10 + digitVal b, rest)
        else if a.isDigit then some (digitVal a, b :: rest)
        else none := rfl
    rw [e] at h
    split at h
    · injection h with h
      injection h with h1 h2
      exact Or.inl h2.symm
    · split at h
      · injection h with h
        injection h with h1 h2
        exact Or.inr h2.symm
      · cases h
  · intro a v r h
    have e : parseMinute [a] =
        if a.isDigit then some (digitVal a, []) else none := rfl
    rw [e] at h
    split at h
    · injection h with h
      injection h with h1 h2
      exact h2.symm
    · cases h

theorem parseSecond_suffix {s : Str} {v : Nat} {r : Str} (h : parseSecond s = some (v, r)) :
    r <:+ s := by
  refine twoDigitField_suffix parseSecond ?_ ?_ rfl h
  · intro a b rest v r h
    have e : parseSecond (a :: b :: rest) =
        if a = '6' && (b = '0' || b = '1') then some (60 + digitVal b, rest)
        else if (a = '0' || a = '1' || a = '2' || a = '3' || a = '4' || a = '5') && b.isDigit then
          some (digitVal a * 10 + digitVal b, rest)
        else if a.isDigit then some (digitVal a, b :: rest)
        else none := rfl
    rw [e] at h
    split at h
    · injection h with h
      injection h with h1 h2
      exact Or.inl h2.symm
    · split at h
      · injection h with h
        injection h with h1 h2
        exact Or.inl h2.symm
      · split at h
        · injection h with h
          injection h with h1 h2
          exact Or.inr h2.symm
        · cases h
  · intro a v r h
    have e : parseSecond [a] =
        if a.isDigit then some (digitVal a, []) else none := rfl
    rw [e] at h
    split at h
    · injection h with h
      injection h with h1 h2
      exact h2.symm
    · cases h

/-- A string that never reaches a `.` cannot match the format
`"%Y-%m-%dT%H:%M:%S.%fZ"`: the literal dot of the format fails. -/
theorem strptimeFmt_no_dot {s : Str} (h : '.' ∉ s) : strptimeFmt s = .error () := by
  unfold strptimeFmt
  cases hy : parseYear s with
  | none => rfl
  | some p =>
  obtain ⟨y, s1⟩ := p
  dsimp only
  have hs1 := (parseYear_suffix hy).subset
  cases hl1 : lit '-' s1 with
  | none => rfl
  | some s2 =>
  dsimp only
  have hs2 := ((lit_suffix hl1).subset).trans hs1
  cases hmo : parseMonth s2 with
  | none => rfl
  | some p =>
  obtain ⟨mo, s3⟩ := p
  dsimp only
  have hs3 := ((parseMonth_suffix hmo).subset).trans hs2
  cases hl2 : lit '-' s3 with
  | none => rfl
  | some s4 =>
  dsimp only
  have hs4 := ((lit_suffix hl2).subset).trans hs3
  cases hd : parseDay s4 with
  | none => rfl
  | some p =>
  obtain ⟨d, s5⟩ := p
  dsimp only
  have hs5 := ((parseDay_suffix hd).subset).trans hs4
  cases hl3 : lit 'T' s5 with
  | none => rfl
  | some s6 =>
  dsimp only
  have hs6 := ((lit_suffix hl3).subset).trans hs5
  cases hh : parseHour s6 with
  | none => rfl
  | some p =>
  obtain ⟨hh', s7⟩ := p
  dsimp only
  have hs7 := ((parseHour_suffix hh).subset).trans hs6
  cases hl4 : lit ':' s7 with
  | none => rfl
  | some s8 =>
  dsimp only
  have hs8 := ((lit_suffix hl4).subset).trans hs7
  cases hmi : parseMinute s8 with
  | none => rfl
  | some p =>
  obtain ⟨mi, s9⟩ := p
  dsimp only
  have hs9 := ((parseMinute_suffix hmi).subset).trans hs8
  cases hl5 : lit ':' s9 with
  | none => rfl
  | some s10 =>
  dsimp only
  have hs10 := ((lit_suffix hl5).subset).trans hs9
  cases hsec : parseSecond s10 with
  | none => rfl
  | some p =>
  obtain ⟨sec, s11⟩ := p
  dsimp only
  have hs11 := ((parseSecond_suffix hsec).subset).trans hs10
  have hdot : lit '.' s11 = none := by
    cases s11 with
    | nil => rfl
    | cons x t =>
      have hx : x ≠ '.' := fun hx => h (hs11 (hx ▸ List.mem_cons_self x t))
      simp [lit, hx]
  rw [hdot]

/-- C2 counterexample: contrary to the claim that "inputs without a
fractional component are also accepted", `parse_timestamp` rejects the
plain ISO-8601 timestamp `"2024-01-01T00:00:01Z"`: the string contains no
dot, so it is passed unchanged to `strptime` with the format
`"%Y-%m-%dT%H:%M:%S.%fZ"`, whose mandatory literal `.` fails to match. -/
theorem c2_counterexample :
    parse_timestamp "2024-01-01T00:00:01Z".data = Except.error () := rfl

/-- C2 (amended): `parse_timestamp` truncates fractional seconds to at most
six digits before parsing, so for any date-time prefix, `"...123456789Z"`
parses exactly like `"...123456Z"` (digits beyond six dropped, not
rounded); but an input without a fractional component is rejected (the
`strptime` format demands a fractional part), rather than accepted as the
claim stated. -/
theorem c2_amended :
    (∀ p : Str, '.' ∉ p →
      parse_timestamp (p ++ ".123456789Z".data) = parse_timestamp (p ++ ".123456Z".data)) ∧
    ∀ s : Str, '.' ∉ s → parse_timestamp s = Except.error () := by
  constructor
  · intro p hp
    have hf9 : '.' ∉ "123456789Z".data := by decide
    have hf6 : '.' ∉ "123456Z".data := by decide
    have c9 : (p ++ ".123456789Z".data) = p ++ '.' :: "123456789Z".data := rfl
    have c6 : (p ++ ".123456Z".data) = p ++ '.' :: "123456Z".data := rfl
    have m9 : '.' ∈ p ++ '.' :: "123456789Z".data :=
      List.mem_append_right p (List.mem_cons_self _ _)
    have m6 : '.' ∈ p ++ '.' :: "123456Z".data :=
      List.mem_append_right p (List.mem_cons_self _ _)
    have e9 : preprocessTs (p ++ '.' :: "123456789Z".data) =
        Except.ok (p ++ '.' :: (("123456789Z".data.filter (fun c => c ≠ 'Z')).take 6 ++ ['Z'])) := by
      unfold preprocessTs
      rw [if_pos m9, splitDot_pair p _ hp hf9]
    have e6 : preprocessTs (p ++ '.' :: "123456Z".data) =
        Except.ok (p ++ '.' :: (("123456Z".data.filter (fun c => c ≠ 'Z')).take 6 ++ ['Z'])) := by
      unfold preprocessTs
      rw [if_pos m6, splitDot_pair p _ hp hf6]
    have t9 : ("123456789Z".data.filter (fun c => c ≠ 'Z')).take 6 = "123456".data := by decide
    have t6 : ("123456Z".data.filter (fun c => c ≠ 'Z')).take 6 = "123456".data := by decide
    unfold parse_timestamp
    rw [c9, c6, e9, e6, t9, t6]
  · intro s hs
    have e : preprocessTs s = Except.ok s := by
      unfold preprocessTs
      rw [if_neg hs]
    unfold parse_timestamp
    rw [e]
    exact strptimeFmt_no_dot hs

/-- C2 witness: the amended statement applied at the spec's concrete
prefix and at a concrete fraction-free timestamp. -/
theorem c2_amended_witness :
    parse_timestamp ("2024-01-01T00:00:00".data ++ ".123456789Z".data) =
      parse_timestamp ("2024-01-01T00:00:00".data ++ ".123456Z".data) ∧
    parse_timestamp "2024-01-01T23:59:59Z".data = Except.error () :=
  ⟨c2_amended.1 "2024-01-01T00:00:00".data (by decide),
    c2_amended.2 "2024-01-01T23:59:59Z".data (by decide)⟩

/-! ### Substring containment and stripping -/

theorem containsSub_of_infix {l s : Str} (h : l <:+: s) : containsSub l s = true := by
  induction s with
  | nil =>
    obtain ⟨t, u, he⟩ := h
    have : l = [] := by
      rcases List.append_eq_nil.mp he with ⟨h1, -⟩
      exact (List.append_eq_nil.mp h1).2
    subst this
    rfl
  | cons c rest ih =>
    by_cases hp : l <+: (c :: rest)
    · simp [containsSub, List.isPrefixOf_iff_prefix.mpr hp]
    · obtain ⟨t, u, he⟩ := h
      cases t with
      | nil => exact absurd ⟨u, by simpa using he⟩ hp
      | cons c' t' =>
        injection he with h1 h2
        have : l <:+: rest := ⟨t', u, by simpa using h2⟩
        simp [containsSub, ih this]

theorem pyStrip_isInfix (s : Str) : pyStrip s <:+: s := by
  unfold pyStrip
  have h1 : List.dropWhile Char.isWhitespace ((List.dropWhile Char.isWhitespace s).reverse) <:+
      (List.dropWhile Char.isWhitespace s).reverse := List.dropWhile_suffix _
  have h2 : (List.dropWhile Char.isWhitespace
        ((List.dropWhile Char.isWhitespace s).reverse)).reverse <+:
      List.dropWhile Char.isWhitespace s := by
    rw [← List.reverse_reverse (List.dropWhile Char.isWhitespace s)]
    exact List.reverse_prefix.mpr (by simpa using h1)
  exact h2.isInfix.trans (List.dropWhile_suffix _).isInfix

theorem pyStrip_ne_of_not_contains {cs : Str} (h : containsSub excludedLiteral cs = false) :
    pyStrip cs ≠ excludedLiteral := by
  intro he
  have : containsSub excludedLiteral cs = true := containsSub_of_infix (he ▸ pyStrip_isInfix cs)
  rw [h] at this
  cases this

/-! ### Claim C1 -/

/-- The fields of one observation as `parse_single_plan` reads them:
`some` exactly when the content is a string and the inner `ThoughtData`
construction (timestamp included) succeeds. -/
def obsFields (t : Json) : Option ThoughtData :=
  match getStr t "content".data with
  | .error _ => none
  | .ok c => (innerThought t (pyStrip c)).toOption

/-- Modelled from the amended spec wording of the exclusion rule: keep an
observation unless its stripped content CONTAINS the excluded literal as a
substring or contains `"plan_"` (the original claim demanded equality for
the literal).  Used as the specification side of the refinement proof. -/
def keepSpecAmended (t : Json) : Option ThoughtData :=
  match getStr t "content".data with
  | .error _ => none
  | .ok c =>
    if containsSub excludedLiteral (pyStrip c) || containsSub "plan_".data (pyStrip c) then none
    else (innerThought t (pyStrip c)).toOption

theorem should_exclude_content_eq (cs : Str) :
    should_exclude_content cs =
      (containsSub excludedLiteral cs || containsSub "plan_".data cs) := by
  simp [should_exclude_content, excluded_content]

theorem innerThought_ok_content {t : Json} {cs : Str} {td : ThoughtData}
    (h : innerThought t cs = .ok td) : td.content = cs := by
  unfold innerThought at h
  repeat' split at h
  all_goals first
    | (injection h with h
       subst h
       rfl)
    | cases h

theorem processThoughts_eq_filterMap (tl : List Json)
    (hall : ∀ t ∈ tl, (obsFields t).isSome) :
    processThoughts tl = .ok (tl.filterMap keepSpecAmended) := by
  induction tl with
  | nil => rfl
  | cons t rest ih =>
    have ht := hall t (List.mem_cons_self t rest)
    have hrest := fun x hx => hall x (List.mem_cons_of_mem t hx)
    unfold obsFields at ht
    cases hget : getStr t "content".data with
    | error e =>
      rw [hget] at ht
      dsimp only at ht
      simp at ht
    | ok c =>
      rw [hget] at ht
      dsimp only at ht
      have hpt : processThought t =
          if should_exclude_content (pyStrip c) then .ok none
          else match innerThought t (pyStrip c) with
            | .ok td => .ok (some td)
            | .error _ => .ok none := by
        unfold processThought
        rw [hget]
      have hks : keepSpecAmended t =
          if containsSub excludedLiteral (pyStrip c) || containsSub "plan_".data (pyStrip c)
          then none else (innerThought t (pyStrip c)).toOption := by
        unfold keepSpecAmended
        rw [hget]
      cases hex : should_exclude_content (pyStrip c) with
      | true =>
        have hc : (containsSub excludedLiteral (pyStrip c) ||
            containsSub "plan_".data (pyStrip c)) = true :=
          (should_exclude_content_eq (pyStrip c)) ▸ hex
        rw [should_exclude_content_eq] at hpt
        unfold processThoughts
        rw [hpt, if_pos hc, List.filterMap_cons, hks, if_pos hc]
        exact ih hrest
      | false =>
        have hc : (containsSub excludedLiteral (pyStrip c) ||
            containsSub "plan_".data (pyStrip c)) = false :=
          (should_exclude_content_eq (pyStrip c)) ▸ hex
        cases hinner : innerThought t (pyStrip c) with
        | error e =>
          rw [hinner] at ht
          simp [Except.toOption] at ht
        | ok td =>
          rw [should_exclude_content_eq] at hpt
          unfold processThoughts
          rw [hpt, if_neg (by simp [hc]), hinner, List.filterMap_cons, hks, if_neg (by simp [hc]),
            hinner, ih hrest]
          rfl

theorem parse_single_plan_eq (folder fn : Str) (j : Json) (tl : List Json)
    (kept : List ThoughtData)
    (hget : getThoughtsList j = .ok tl) (hproc : processThoughts tl = .ok kept) :
    parse_single_plan folder fn (some j) =
      if (sortK thoughtKey kept).isEmpty then none
      else some ⟨pyGet j "id".data, folder, fn, (sortK thoughtKey kept).map renderThought⟩ := by
  unfold parse_single_plan parse_single_plan_body
  dsimp only
  rw [hget]
  dsimp only
  rw [hproc]
  dsimp only
  by_cases he : (sortK thoughtKey kept).isEmpty = true
  · rw [if_pos he, if_pos he]
  · rw [if_neg he, if_neg he]

theorem keepSpecAmended_not_contains {t : Json} {td : ThoughtData}
    (h : keepSpecAmended t = some td) :
    containsSub excludedLiteral td.content = false := by
  unfold keepSpecAmended at h
  cases hg : getStr t "content".data with
  | error e =>
    rw [hg] at h
    cases h
  | ok c =>
    rw [hg] at h
    dsimp only at h
    split at h
    · cases h
    · rename_i hcond
      cases hinner : innerThought t (pyStrip c) with
      | error e =>
        rw [hinner] at h
        cases h
      | ok td' =>
        rw [hinner] at h
        injection h with h
        subst h
        rw [innerThought_ok_content hinner]
        have hfalse : (containsSub excludedLiteral (pyStrip c) ||
            containsSub "plan_".data (pyStrip c)) = false := Bool.eq_false_iff.mpr hcond
        exact (Bool.or_eq_false_iff.mp hfalse).1

/-- The observation of the C1 counterexample: every field parses, the
stripped content is NOT equal to the excluded literal and does not contain
`"plan_"`, but it does contain the literal as a proper substring. -/
def obsC1 : Json := .obj [
  ("timestamp".data, .str "2024-01-01T00:00:00.1Z".data),
  ("content".data, .str " x Exploring system dynamics and adaptation patterns".data),
  ("real_time_factors".data, .arr []),
  ("relevance_score".data, .num 1),
  ("confidence_score".data, .num 1)]

/-- A run whose only file holds just `obsC1`. -/
def dirsC1 : List PDir :=
  [⟨"1".data, [("a.json".data, some (Json.obj [("thoughts".data, Json.arr [obsC1])]))]⟩]

/-- C1 counterexample: an observation whose fields all parse, whose
stripped content does not equal the excluded literal and does not contain
`"plan_"`, is nevertheless excluded from both aggregates — the code tests
substring containment (`excluded in content`) for the long literal too,
not equality as the claim states.  Both aggregates of the run come out
empty. -/
theorem c1_counterexample :
    (obsFields obsC1).isSome = true ∧
    pyStrip " x Exploring system dynamics and adaptation patterns".data ≠ excludedLiteral ∧
    containsSub "plan_".data
      (pyStrip " x Exploring system dynamics and adaptation patterns".data) = false ∧
    (parse_all_plans [] [] dirsC1).plans = [] ∧
    create_condensed_output (parse_all_plans [] [] dirsC1) = [] :=
  ⟨rfl, by decide, rfl, rfl, rfl⟩

/-- C1 (amended): an observation whose remaining fields parse is excluded
from the per-file document (and hence both aggregates) if and only if its
whitespace-stripped content CONTAINS the excluded literal as a substring
or contains `"plan_"`; equivalently the thought loop keeps exactly
`filterMap keepSpecAmended`.  Every surviving observation appears in its
Plan Document, everything in a Plan Document comes from a survivor, each
document observation survives the condensation pass, and each condensed
pair of a listed document is in the Short Aggregate. -/
theorem c1_amended :
    (∀ cs : Str, should_exclude_content cs =
      (containsSub excludedLiteral cs || containsSub "plan_".data cs)) ∧
    (∀ tl : List Json, (∀ t ∈ tl, (obsFields t).isSome) →
      processThoughts tl = Except.ok (tl.filterMap keepSpecAmended)) ∧
    (∀ folder fn j tl doc, getThoughtsList j = Except.ok tl →
      (∀ t ∈ tl, (obsFields t).isSome) →
      parse_single_plan folder fn (some j) = some doc →
      (∀ td ∈ tl.filterMap keepSpecAmended, renderThought td ∈ doc.thoughts) ∧
      (∀ th ∈ doc.thoughts, ∃ td ∈ tl.filterMap keepSpecAmended, th = renderThought td) ∧
      (∀ th ∈ doc.thoughts, (pyStrip th.content, th.real_time_factors) ∈ condenseDoc doc)) ∧
    (∀ results : FullResults, ∀ dn dp fn doc pr, (dn, dp) ∈ results.plans → (fn, doc) ∈ dp →
      pr ∈ condenseDoc doc → pr ∈ create_condensed_output results) := by
  refine ⟨should_exclude_content_eq, processThoughts_eq_filterMap, ?_, ?_⟩
  · intro folder fn j tl doc hget hall hp
    have hproc := processThoughts_eq_filterMap tl hall
    rw [parse_single_plan_eq folder fn j tl (tl.filterMap keepSpecAmended) hget hproc] at hp
    by_cases he : (sortK thoughtKey (tl.filterMap keepSpecAmended)).isEmpty = true
    · rw [if_pos he] at hp
      cases hp
    · rw [if_neg he] at hp
      injection hp with hp
      subst hp
      refine ⟨?_, ?_, ?_⟩
      · intro td htd
        exact List.mem_map_of_mem _ ((mem_sortK _ _ _).mpr htd)
      · intro th hth
        obtain ⟨td, htd, heq⟩ := List.mem_map.mp hth
        exact ⟨td, (mem_sortK _ _ _).mp htd, heq.symm⟩
      · intro th hth
        obtain ⟨td, htd, heq⟩ := List.mem_map.mp hth
        obtain ⟨t, -, hkeep⟩ := List.mem_filterMap.mp ((mem_sortK _ _ _).mp htd)
        have hcc : containsSub excludedLiteral th.content = false := by
          rw [← heq]
          exact keepSpecAmended_not_contains hkeep
        refine List.mem_filterMap.mpr ⟨th, hth, ?_⟩
        rw [if_neg (pyStrip_ne_of_not_contains hcc)]
  · intro results dn dp fn doc pr h1 h2 h3
    exact List.mem_flatMap.mpr ⟨(dn, dp), h1, List.mem_flatMap.mpr ⟨(fn, doc), h2, h3⟩⟩

/-- First witness observation: kept (content `" keep me "`). -/
def obsW1a : Json := .obj [
  ("timestamp".data, .str "2024-01-01T00:00:02.5Z".data),
  ("content".data, .str " keep me ".data),
  ("real_time_factors".data, .arr [.str "f1".data]),
  ("relevance_score".data, .num 1),
  ("confidence_score".data, .num 1)]

/-- Second witness observation: excluded (content `"plan_drop"`). -/
def obsW1b : Json := .obj [
  ("timestamp".data, .str "2024-01-01T00:00:01.5Z".data),
  ("content".data, .str "plan_drop".data),
  ("real_time_factors".data, .arr []),
  ("relevance_score".data, .num 1),
  ("confidence_score".data, .num 1)]

/-- The witness thought list and its file. -/
def tlW1 : List Json := [obsW1a, obsW1b]

/-- The witness file for C1. -/
def jW1 : Json := .obj [("thoughts".data, .arr tlW1)]

/-- A hand-written aggregate used to witness the flattening conjunct. -/
def docW : PlanDoc :=
  ⟨Json.null, "1".data, "a.json".data,
    [⟨"ts".data, "hello".data, Json.arr [], Json.null, Json.null⟩]⟩

/-- A hand-written `FullResults` holding `docW`. -/
def resultsW : FullResults :=
  ⟨[("1".data, [("a.json".data, docW)])], 1, 1, [], [], []⟩

/-- C1 witness: the amended statement applied at concrete inputs. -/
theorem c1_amended_witness :
    (should_exclude_content "plan_x".data =
      (containsSub excludedLiteral "plan_x".data || containsSub "plan_".data "plan_x".data)) ∧
    processThoughts tlW1 = Except.ok (tlW1.filterMap keepSpecAmended) ∧
    (∃ doc, parse_single_plan "1".data "a.json".data (some jW1) = some doc ∧
      ∀ th ∈ doc.thoughts, (pyStrip th.content, th.real_time_factors) ∈ condenseDoc doc) ∧
    ("hello".data, Json.arr []) ∈ create_condensed_output resultsW :=
  ⟨c1_amended.1 "plan_x".data,
    c1_amended.2.1 tlW1 (by decide),
    ⟨_, rfl, (c1_amended.2.2.1 "1".data "a.json".data jW1 tlW1 _ rfl (by decide) rfl).2.2⟩,
    c1_amended.2.2.2 resultsW "1".data [("a.json".data, docW)] "a.json".data docW
      ("hello".data, Json.arr []) (List.mem_singleton.mpr rfl) (List.mem_singleton.mpr rfl)
      (List.mem_singleton.mpr rfl)⟩

/-! ### Claim C3 -/

theorem processThoughts_error_mem (l1 l2 : List Json) (bad : Json)
    (hbad : getStr bad "content".data = Except.error ()) :
    processThoughts (l1 ++ bad :: l2) = Except.error () := by
  induction l1 with
  | nil =>
    have hpb : processThought bad = Except.error () := by
      unfold processThought
      rw [hbad]
    show processThoughts (bad :: l2) = Except.error ()
    unfold processThoughts
    rw [hpb]
  | cons x rest ih =>
    show processThoughts (x :: (rest ++ bad :: l2)) = Except.error ()
    unfold processThoughts
    cases hx : processThought x with
    | error e => rfl
    | ok o =>
      cases o with
      | none => exact ih
      | some td =>
        dsimp only
        rw [ih]

theorem processThought_skip {bad : Json} {c : Str}
    (h1 : getStr bad "content".data = Except.ok c)
    (h2 : should_exclude_content (pyStrip c) = false)
    (h3 : innerThought bad (pyStrip c) = Except.error ()) :
    processThought bad = Except.ok none := by
  unfold processThought
  rw [h1]
  dsimp only
  rw [if_neg (by simp [h2]), h3]

theorem processThoughts_skip (l1 l2 : List Json) (bad : Json)
    (hskip : processThought bad = Except.ok none) :
    processThoughts (l1 ++ bad :: l2) = processThoughts (l1 ++ l2) := by
  induction l1 with
  | nil =>
    show processThoughts (bad :: l2) = processThoughts l2
    conv_lhs => unfold processThoughts
    rw [hskip]
  | cons x rest ih =>
    show processThoughts (x :: (rest ++ bad :: l2)) = processThoughts (x :: (rest ++ l2))
    unfold processThoughts
    rw [ih]

/-- An observation with no `content` field (its timestamp is fine). -/
def obsBadC3 : Json := .obj [("timestamp".data, .str "2024-01-01T00:00:00.5Z".data)]

/-- A perfectly well-formed observation in the same file. -/
def obsGoodC3 : Json := .obj [
  ("timestamp".data, .str "2024-01-01T00:00:01.5Z".data),
  ("content".data, .str " hi there ".data),
  ("real_time_factors".data, .arr [.str "g".data]),
  ("relevance_score".data, .num 1),
  ("confidence_score".data, .num 1)]

/-- The C3 counterexample file: one broken and one good observation. -/
def jC3 : Json := .obj [("thoughts".data, .arr [obsBadC3, obsGoodC3])]

/-- C3 counterexample: in a file holding one observation with a missing
`content` field and one fully well-formed observation, the whole file is
dropped (`parse_single_plan` returns `None`), contrary to the claim that
only the broken observation is skipped and the file still yields a Plan
Document: `thought["content"]` is read OUTSIDE the inner `try`, so its
`KeyError` reaches the per-file handler. -/
theorem c3_counterexample :
    (obsFields obsGoodC3).isSome = true ∧
    should_exclude_content (pyStrip " hi there ".data) = false ∧
    parse_single_plan "1".data "a.json".data (some jC3) = none :=
  ⟨rfl, rfl, rfl⟩

/-- C3 (amended): a failure confined to the inner `try` — malformed
timestamp or a missing field other than `content` — skips only that
observation (the error is printed to the console, not recorded in the
aggregate), the rest of the file still processes and, if any observation
survives, the file still yields a Plan Document; but an observation whose
`content` field is missing or not a string aborts the whole file: the
file yields no Plan Document and all its observations are lost. -/
theorem c3_amended :
    (∀ folder fn j tl l1 bad l2, getThoughtsList j = Except.ok tl → tl = l1 ++ bad :: l2 →
      getStr bad "content".data = Except.error () →
      parse_single_plan folder fn (some j) = none) ∧
    (∀ l1 l2 bad c, getStr bad "content".data = Except.ok c →
      should_exclude_content (pyStrip c) = false →
      innerThought bad (pyStrip c) = Except.error () →
      processThoughts (l1 ++ bad :: l2) = processThoughts (l1 ++ l2)) ∧
    (∀ folder fn j l1 bad l2 c kept,
      getThoughtsList j = Except.ok (l1 ++ bad :: l2) →
      getStr bad "content".data = Except.ok c →
      should_exclude_content (pyStrip c) = false →
      innerThought bad (pyStrip c) = Except.error () →
      processThoughts (l1 ++ l2) = Except.ok kept →
      parse_single_plan folder fn (some j) =
        if (sortK thoughtKey kept).isEmpty then none
        else some ⟨pyGet j "id".data, folder, fn,
          (sortK thoughtKey kept).map renderThought⟩) := by
  refine ⟨?_, ?_, ?_⟩
  · intro folder fn j tl l1 bad l2 hget htl hbad
    subst htl
    have hproc := processThoughts_error_mem l1 l2 bad hbad
    unfold parse_single_plan parse_single_plan_body
    dsimp only
    rw [hget]
    dsimp only
    rw [hproc]
  · intro l1 l2 bad c h1 h2 h3
    exact processThoughts_skip l1 l2 bad (processThought_skip h1 h2 h3)
  · intro folder fn j l1 bad l2 c kept hget h1 h2 h3 h5
    exact parse_single_plan_eq folder fn j (l1 ++ bad :: l2) kept hget
      ((processThoughts_skip l1 l2 bad (processThought_skip h1 h2 h3)).trans h5)

/-- An observation whose `content` is fine but whose timestamp does not
parse (no fractional part, so `strptime` rejects it). -/
def obsBadTsC3 : Json := .obj [
  ("content".data, .str "salvage me not".data),
  ("timestamp".data, .str "2024-01-01T00:00:07Z".data)]

/-- A good companion observation for the C3 witness. -/
def obsGoodTsC3 : Json := .obj [
  ("timestamp".data, .str "2024-01-01T00:00:03.25Z".data),
  ("content".data, .str "kept one".data),
  ("real_time_factors".data, .arr []),
  ("relevance_score".data, .num 2),
  ("confidence_score".data, .num 3)]

/-- The C3 witness file: a good observation followed by one with a
malformed timestamp. -/
def jC3w : Json := .obj [("thoughts".data, .arr [obsGoodTsC3, obsBadTsC3])]

/-- C3 witness: the amended statement applied at concrete inputs — the
content-less observation kills its whole file, while the observation with
only a broken timestamp is skipped alone and its file still yields a
document built from the surviving observation. -/
theorem c3_amended_witness :
    parse_single_plan "1".data "a.json".data (some jC3) = none ∧
    processThoughts ([obsGoodTsC3] ++ obsBadTsC3 :: []) =
      processThoughts ([obsGoodTsC3] ++ []) ∧
    ∃ kept, processThoughts ([obsGoodTsC3] ++ []) = Except.ok kept ∧
      parse_single_plan "1".data "b.json".data (some jC3w) =
        (if (sortK thoughtKey kept).isEmpty then none
         else some ⟨pyGet jC3w "id".data, "1".data, "b.json".data,
           (sortK thoughtKey kept).map renderThought⟩) :=
  ⟨c3_amended.1 "1".data "a.json".data jC3 [obsBadC3, obsGoodC3] [] obsBadC3 [obsGoodC3]
      rfl rfl rfl,
    c3_amended.2.1 [obsGoodTsC3] [] obsBadTsC3 "salvage me not".data rfl rfl rfl,
    ⟨_, rfl, c3_amended.2.2 "1".data "b.json".data jC3w [obsGoodTsC3] obsBadTsC3 []
      "salvage me not".data _ rfl rfl rfl rfl rfl⟩⟩

/-! ### Claim C5 -/

/-- C5: in every Plan Document, the observation list is produced by the
stable key sort of the surviving observations: adjacent (indeed all)
pairs are non-decreasing in parsed timestamp, observations with identical
parsed timestamps keep exactly the relative order they had in the input
file (`kept` is the surviving observations in file order), and
`parse_single_plan` publishes precisely that sorted list. -/
theorem c5_sorted_stable :
    ∀ folder fn j tl kept, getThoughtsList j = Except.ok tl →
      processThoughts tl = Except.ok kept →
      ((sortK thoughtKey kept).Pairwise
        (fun a b => tsKey a.timestamp ≤ tsKey b.timestamp)) ∧
      (∀ dt : DateTime, (sortK thoughtKey kept).filter (fun t => t.timestamp = dt) =
        kept.filter (fun t => t.timestamp = dt)) ∧
      parse_single_plan folder fn (some j) =
        (if (sortK thoughtKey kept).isEmpty then none
         else some ⟨pyGet j "id".data, folder, fn,
           (sortK thoughtKey kept).map renderThought⟩) := by
  intro folder fn j tl kept hget hproc
  refine ⟨?_, ?_, parse_single_plan_eq folder fn j tl kept hget hproc⟩
  · refine (pairwise_sortK thoughtKey kept).imp ?_
    intro a b h
    unfold thoughtKey at h
    exact_mod_cast h
  · intro dt
    refine filter_sortK thoughtKey _ kept ?_
    intro a b ha hb
    have ha' : a.timestamp = dt := of_decide_eq_true ha
    have hb' : b.timestamp = dt := of_decide_eq_true hb
    unfold thoughtKey
    rw [ha', hb']

/-- Three observations for the C5 witness: two share a timestamp (tie) and
one earlier timestamp arrives last. -/
def obsC5a : Json := .obj [
  ("timestamp".data, .str "2024-01-01T00:00:09.3Z".data),
  ("content".data, .str "first of tie".data),
  ("real_time_factors".data, .arr []),
  ("relevance_score".data, .num 1),
  ("confidence_score".data, .num 1)]

/-- Second element of the C5 tie. -/
def obsC5b : Json := .obj [
  ("timestamp".data, .str "2024-01-01T00:00:09.3Z".data),
  ("content".data, .str "second of tie".data),
  ("real_time_factors".data, .arr []),
  ("relevance_score".data, .num 1),
  ("confidence_score".data, .num 1)]

/-- The earliest observation, listed last in the C5 file. -/
def obsC5c : Json := .obj [
  ("timestamp".data, .str "2024-01-01T00:00:04.5Z".data),
  ("content".data, .str "earliest".data),
  ("real_time_factors".data, .arr []),
  ("relevance_score".data, .num 1),
  ("confidence_score".data, .num 1)]

/-- The C5 witness thought list and file. -/
def tlC5 : List Json := [obsC5a, obsC5b, obsC5c]

/-- The C5 witness file. -/
def jC5 : Json := .obj [("thoughts".data, .arr tlC5)]

/-- C5 witness: the sortedness/stability statement applied at a concrete
three-observation file with a timestamp tie. -/
theorem c5_witness :
    ∃ kept, processThoughts tlC5 = Except.ok kept ∧
      ((sortK thoughtKey kept).Pairwise
        (fun a b => tsKey a.timestamp ≤ tsKey b.timestamp) ∧
       (∀ dt : DateTime, (sortK thoughtKey kept).filter (fun t => t.timestamp = dt) =
         kept.filter (fun t => t.timestamp = dt)) ∧
       parse_single_plan "1".data "c.json".data (some jC5) =
         (if (sortK thoughtKey kept).isEmpty then none
          else some ⟨pyGet jC5 "id".data, "1".data, "c.json".data,
            (sortK thoughtKey kept).map renderThought⟩)) :=
  ⟨_, rfl, c5_sorted_stable "1".data "c.json".data jC5 tlC5 _ rfl rfl⟩

/-! ### Claim C6 -/

theorem keyDirs_mem {dirs : List PDir} {keyed : List (Int × PDir)}
    (h : keyDirs dirs = Except.ok keyed) : ∀ p ∈ keyed, p.2 ∈ dirs := by
  induction dirs generalizing keyed with
  | nil =>
    injection h with h
    subst h
    intro p hp
    cases hp
  | cons d rest ih =>
    unfold keyDirs at h
    cases hint : pyInt d.name with
    | none =>
      rw [hint] at h
      cases h
    | some k =>
      rw [hint] at h
      dsimp only at h
      cases hrest : keyDirs rest with
      | error m =>
        rw [hrest] at h
        cases h
      | ok l =>
        rw [hrest] at h
        injection h with h
        subst h
        intro p hp
        rcases List.mem_cons.mp hp with rfl | hp
        · exact List.mem_cons_self d rest
        · exact List.mem_cons_of_mem d (ih hrest p hp)

theorem nodup_keys_eq {l : List (Str × Option Json)} (h : (l.map Prod.fst).Nodup)
    {fn : Str} {c c' : Option Json} (h1 : (fn, c) ∈ l) (h2 : (fn, c') ∈ l) : c = c' := by
  induction l with
  | nil => cases h1
  | cons x rest ih =>
    rw [List.map_cons, List.nodup_cons] at h
    rcases List.mem_cons.mp h1 with rfl | h1'
    · rcases List.mem_cons.mp h2 with he | h2'
      · exact (congrArg Prod.snd he).symm
      · exact absurd (List.mem_map_of_mem Prod.fst h2') h.1
    · rcases List.mem_cons.mp h2 with rfl | h2'
      · exact absurd (List.mem_map_of_mem Prod.fst h1') h.1
      · exact ih h.2 h1' h2'

/-- C6: plans-mapping entries exist only for contributing inputs.
(1) Every directory entry of the Full Aggregate comes from an input
directory whose file mapping is exactly `processDir` of it and is
non-empty. (2) A file name maps to a document inside `processDir` exactly
when some file with that name parsed to that document. (3) With distinct
file names, a file on which `parse_single_plan` returns `None` (zero
surviving observations included) never appears as a key. (4) A directory
appears as a key only if at least one of its files produced a Plan
Document. -/
theorem c6_contributing_keys :
    (∀ now root dirs dn dp, (dn, dp) ∈ (parse_all_plans now root dirs).plans →
      dp ≠ [] ∧ ∃ d ∈ dirs, d.name = dn ∧ dp = processDir d) ∧
    (∀ (d : PDir) (fn : Str) (doc : PlanDoc), (fn, doc) ∈ processDir d ↔
      ∃ c, (fn, c) ∈ d.files ∧ parse_single_plan d.name fn c = some doc) ∧
    (∀ (d : PDir) (fn : Str) (c : Option Json), (d.files.map Prod.fst).Nodup →
      (fn, c) ∈ d.files → parse_single_plan d.name fn c = none →
      ∀ doc, (fn, doc) ∉ processDir d) ∧
    (∀ now root dirs dn dp, (dn, dp) ∈ (parse_all_plans now root dirs).plans →
      ∃ d ∈ dirs, d.name = dn ∧
        ∃ fn c doc, (fn, c) ∈ d.files ∧ parse_single_plan d.name fn c = some doc) := by
  have hmem : ∀ (d : PDir) (fn : Str) (doc : PlanDoc), (fn, doc) ∈ processDir d ↔
      ∃ c, (fn, c) ∈ d.files ∧ parse_single_plan d.name fn c = some doc := by
    intro d fn doc
    unfold processDir
    rw [List.mem_filterMap]
    constructor
    · rintro ⟨⟨fn', c⟩, hf, hmap⟩
      rcases Option.map_eq_some'.mp hmap with ⟨doc', hps, he⟩
      injection he with e1 e2
      subst e1
      subst e2
      exact ⟨c, hf, hps⟩
    · rintro ⟨c, hf, hps⟩
      exact ⟨(fn, c), hf, by rw [hps]; rfl⟩
  have hplans : ∀ now root dirs dn dp, (dn, dp) ∈ (parse_all_plans now root dirs).plans →
      dp ≠ [] ∧ ∃ d ∈ dirs, d.name = dn ∧ dp = processDir d := by
    intro now root dirs dn dp hp
    unfold parse_all_plans at hp
    cases hk : keyDirs dirs with
    | error m =>
      rw [hk] at hp
      cases hp
    | ok keyed =>
      rw [hk] at hp
      dsimp only at hp
      rcases List.mem_filterMap.mp hp with ⟨d, hd, hsome⟩
      rcases List.mem_map.mp hd with ⟨p, hpk, rfl⟩
      have hddirs : p.2 ∈ dirs := keyDirs_mem hk p ((mem_sortK _ _ _).mp hpk)
      by_cases he : (processDir p.2).isEmpty = true
      · rw [if_pos he] at hsome
        cases hsome
      · rw [if_neg he] at hsome
        injection hsome with hsome
        injection hsome with e1 e2
        subst e1
        subst e2
        exact ⟨fun hnil => he (by rw [hnil]; rfl), p.2, hddirs, rfl, rfl⟩
  refine ⟨hplans, hmem, ?_, ?_⟩
  · intro d fn c hnd hf hnone doc hdoc
    rcases (hmem d fn doc).mp hdoc with ⟨c', hf', hps⟩
    rw [nodup_keys_eq hnd hf hf'] at hnone
    rw [hnone] at hps
    cases hps
  · intro now root dirs dn dp hp
    rcases hplans now root dirs dn dp hp with ⟨hne, d, hd, hname, hdp⟩
    refine ⟨d, hd, hname, ?_⟩
    cases hdp' : dp with
    | nil => exact absurd hdp' hne
    | cons x rest =>
      have hx : x ∈ processDir d := by
        rw [← hdp, hdp']
        exact List.mem_cons_self x rest
      rcases (hmem d x.1 x.2).mp hx with ⟨c, hf, hps⟩
      exact ⟨x.1, c, x.2, hf, hps⟩

/-- A well-formed single-observation file for the C6 witness. -/
def jC6good : Json := .obj [("thoughts".data, .arr [.obj [
  ("timestamp".data, .str "2024-01-01T00:00:05.5Z".data),
  ("content".data, .str "c6 content".data),
  ("real_time_factors".data, .arr []),
  ("relevance_score".data, .num 1),
  ("confidence_score".data, .num 1)]])]

/-- A file whose single observation is excluded, so no document results. -/
def jC6empty : Json := .obj [("thoughts".data, .arr [.obj [
  ("timestamp".data, .str "2024-01-01T00:00:06.5Z".data),
  ("content".data, .str "plan_z".data),
  ("real_time_factors".data, .arr []),
  ("relevance_score".data, .num 1),
  ("confidence_score".data, .num 1)]])]

/-- The C6 witness run: one directory with a contributing and a
non-contributing file. -/
def dirsC6 : List PDir :=
  [⟨"2".data, [("good.json".data, some jC6good), ("empty.json".data, some jC6empty)]⟩]

/-- The non-contributing directory used for the C6 witness's third part. -/
def dBadC6 : PDir := ⟨"9".data, [("z.json".data, none)]⟩

/-- C6 witness: the statement applied at concrete inputs. -/
theorem c6_witness :
    (∃ dn dp, (dn, dp) ∈ (parse_all_plans [] [] dirsC6).plans ∧ dp ≠ [] ∧
      ∃ d ∈ dirsC6, d.name = dn ∧ dp = processDir d) ∧
    (∀ doc, (("empty.json".data : Str), doc) ∉
      processDir ⟨"2".data, [("good.json".data, some jC6good), ("empty.json".data, some jC6empty)]⟩) ∧
    (∀ doc, (("z.json".data : Str), doc) ∉ processDir dBadC6) ∧
    (∃ d ∈ dirsC6, d.name = "2".data ∧
      ∃ fn c doc, (fn, c) ∈ d.files ∧ parse_single_plan d.name fn c = some doc) := by
  refine ⟨⟨_, _, List.mem_singleton.mpr rfl,
      c6_contributing_keys.1 [] [] dirsC6 _ _ (List.mem_singleton.mpr rfl)⟩, ?_, ?_, ?_⟩
  · exact c6_contributing_keys.2.2.1 _ "empty.json".data (some jC6empty) (by decide)
      (List.mem_cons_of_mem _ (List.mem_singleton.mpr rfl)) rfl
  · exact c6_contributing_keys.2.2.1 dBadC6 "z.json".data none (by decide)
      (List.mem_singleton.mpr rfl) rfl
  · exact c6_contributing_keys.2.2.2 [] [] dirsC6 "2".data _
      (List.mem_singleton.mpr rfl)

/-! ### Claims C9 and C10 -/

/-- C9: `parse_single_plan` is total — its whole body sits in a catch-all
handler, modelled by its `Except`-valued body being collapsed to an
`Option` — so the per-file `except` branch of `parse_all_plans` never
fires, and the Full Aggregate's errors list can only ever hold
directory-level entries: every error string carries the
`"Directory error: "` tag produced by the top-level handler. -/
theorem c9_errors_only_directory_level :
    ∀ now root dirs, ∀ e ∈ (parse_all_plans now root dirs).errors,
      "Directory error: ".data.isPrefixOf e = true := by
  intro now root dirs e he
  unfold parse_all_plans at he
  cases hk : keyDirs dirs with
  | error m =>
    rw [hk] at he
    dsimp only at he
    rw [List.mem_singleton.mp he]
    exact List.isPrefixOf_iff_prefix.mpr ⟨m, rfl⟩
  | ok keyed =>
    rw [hk] at he
    cases he

/-- The C9 witness run: a single directory whose name is not an integer,
producing the one possible kind of error entry. -/
def dirsC9 : List PDir := [⟨"x".data, []⟩]

/-- C9 witness: the single error of the concrete failing run carries the
directory-level tag. -/
theorem c9_witness :
    ∃ e, (parse_all_plans [] [] dirsC9).errors = [e] ∧
      "Directory error: ".data.isPrefixOf e = true :=
  ⟨_, rfl, c9_errors_only_directory_level [] [] dirsC9 _ (List.mem_singleton.mpr rfl)⟩

theorem keyDirs_error_of_bad {dirs : List PDir} (h : ∃ d ∈ dirs, pyInt d.name = none) :
    ∃ m, keyDirs dirs = Except.error m := by
  induction dirs with
  | nil =>
    obtain ⟨d, hd, -⟩ := h
    cases hd
  | cons d rest ih =>
    cases hint : pyInt d.name with
    | none =>
      refine ⟨intErrMsg d.name, ?_⟩
      unfold keyDirs
      rw [hint]
    | some k =>
      obtain ⟨d', hd', hbad⟩ := h
      rcases List.mem_cons.mp hd' with rfl | hd'
      · rw [hint] at hbad
        cases hbad
      · obtain ⟨m, hm⟩ := ih ⟨d', hd', hbad⟩
        refine ⟨m, ?_⟩
        unfold keyDirs
        rw [hint, hm]

/-- C10: when any immediate subdirectory name fails to parse as an
integer, the numeric sort of the directory list raises before any
directory is processed; the run still completes, returning a Full
Aggregate with an empty plans mapping, zero directory and plan counts,
and exactly one error string tagged `"Directory error: "` — no partial
subset of directories is processed. -/
theorem c10_nonnumeric_dir_aborts :
    ∀ now root dirs, (∃ d ∈ dirs, pyInt d.name = none) →
      ∃ m, parse_all_plans now root dirs =
        { plans := [], total_directories := 0, total_plans := 0, base_directory := root,
          processed_at := now, errors := ["Directory error: ".data ++ m] } := by
  intro now root dirs h
  obtain ⟨m, hm⟩ := keyDirs_error_of_bad h
  refine ⟨m, ?_⟩
  unfold parse_all_plans
  rw [hm]

/-- The C10 witness run: a numeric directory followed by a non-numeric
one. -/
def dirsC10 : List PDir := [⟨"10".data, []⟩, ⟨"abc".data, []⟩]

/-- C10 witness: the statement applied at the concrete run. -/
theorem c10_witness :
    ∃ m, parse_all_plans [] [] dirsC10 =
      { plans := [], total_directories := 0, total_plans := 0, base_directory := [],
        processed_at := [], errors := ["Directory error: ".data ++ m] } :=
  c10_nonnumeric_dir_aborts [] [] dirsC10
    ⟨⟨"abc".data, []⟩, List.mem_cons_of_mem _ (List.mem_singleton.mpr rfl), rfl⟩

/-! ### Claim C4 -/

/-- Remove the files whose text `json.load` rejects. -/
def stripUnparseable (d : PDir) : PDir := ⟨d.name, d.files.filter (fun f => f.2.isSome)⟩

theorem processDir_strip (d : PDir) : processDir (stripUnparseable d) = processDir d := by
  unfold processDir stripUnparseable
  dsimp only
  induction d.files with
  | nil => rfl
  | cons f rest ih =>
    cases hf : f.2 with
    | none =>
      have hps : parse_single_plan d.name f.1 f.2 = none := by
        rw [hf]
        rfl
      rw [List.filter_cons_of_neg (by simp [hf]), List.filterMap_cons, hps]
      exact ih
    | some j =>
      rw [List.filter_cons_of_pos (by simp [hf]), List.filterMap_cons, List.filterMap_cons, ih]

theorem keyDirs_map_strip (dirs : List PDir) :
    keyDirs (dirs.map stripUnparseable) =
      (keyDirs dirs).map (List.map (fun p => (p.1, stripUnparseable p.2))) := by
  induction dirs with
  | nil => rfl
  | cons d rest ih =>
    show keyDirs (stripUnparseable d :: rest.map stripUnparseable) = _
    unfold keyDirs
    have hn : (stripUnparseable d).name = d.name := rfl
    rw [hn]
    cases hint : pyInt d.name with
    | none => rfl
    | some k =>
      dsimp only
      rw [ih]
      cases hrest : keyDirs rest with
      | error m => rfl
      | ok l => rfl

/-- C4 (amended): a leaf file that fails to parse as JSON is silently
skipped — `parse_single_plan` prints the error to the console and returns
`None`, nothing is appended to the Full Aggregate's errors list (only the
top-level handler ever appends, with a `"Directory error: "` tag), and
processing continues unaffected: the run's entire output is identical to
the output on the same input with every unparseable file removed. -/
theorem c4_amended :
    ∀ now root dirs, parse_all_plans now root dirs =
      parse_all_plans now root (dirs.map stripUnparseable) := by
  intro now root dirs
  unfold parse_all_plans
  rw [keyDirs_map_strip dirs]
  cases hk : keyDirs dirs with
  | error m => rfl
  | ok keyed =>
    dsimp only [Except.map]
    have key :
        ((sortK (fun p => p.1)
            (keyed.map (fun p => (p.1, stripUnparseable p.2)))).map (fun p => p.2)).filterMap
          (fun d => if (processDir d).isEmpty = true then none
            else some (d.name, processDir d)) =
        ((sortK (fun p => p.1) keyed).map (fun p => p.2)).filterMap
          (fun d => if (processDir d).isEmpty = true then none
            else some (d.name, processDir d)) := by
      rw [sortK_map (fun p : Int × PDir => p.1) (fun p : Int × PDir => p.1)
        (fun p : Int × PDir => (p.1, stripUnparseable p.2)) (fun a => rfl) keyed,
        List.map_map, List.filterMap_map, List.filterMap_map]
      apply List.filterMap_congr
      intro p hp
      show (if (processDir (stripUnparseable p.2)).isEmpty = true then none
          else some ((stripUnparseable p.2).name, processDir (stripUnparseable p.2))) =
        (if (processDir p.2).isEmpty = true then none else some (p.2.name, processDir p.2))
      rw [processDir_strip]
      rfl
    rw [key]

/-- A well-formed companion file for the C4 counterexample. -/
def jC4ok : Json := .obj [("thoughts".data, .arr [.obj [
  ("timestamp".data, .str "2024-01-01T00:00:08.5Z".data),
  ("content".data, .str "survivor".data),
  ("real_time_factors".data, .arr []),
  ("relevance_score".data, .num 1),
  ("confidence_score".data, .num 1)]])]

/-- The C4 counterexample run: one unparseable and one good file. -/
def dirsC4 : List PDir :=
  [⟨"1".data, [("bad.json".data, none), ("ok.json".data, some jC4ok)]⟩]

/-- C4 counterexample: the file `bad.json` fails to parse as JSON
(`parse_single_plan` yields `None`), yet the Full Aggregate's errors list
stays EMPTY — no error string with the file path is appended, contrary to
the claim; processing does continue (the good file still contributes). -/
theorem c4_counterexample :
    parse_single_plan "1".data "bad.json".data none = none ∧
    (parse_all_plans [] [] dirsC4).errors = [] ∧
    (parse_all_plans [] [] dirsC4).plans.map Prod.fst = ["1".data] :=
  ⟨rfl, rfl, rfl⟩

/-! ### Claim C7 -/

/-- The stripped content string of each record, in scan order. -/
def contentKeys (ts : List Json) : List Str :=
  ts.filterMap (fun t => ((getStr t "c".data).toOption).map pyStrip)

/-- All stripped factor strings of all records, flattened in scan order. -/
def factorKeys (ts : List Json) : List Str :=
  ts.flatMap (fun t => (((getFactors t).toOption).getD []).map pyStrip)

/-- Deduplication keeping the first occurrence of each key, in order. -/
def firstOccAux (acc : List Str) : List Str → List Str
  | [] => acc
  | k :: rest => if k ∈ acc then firstOccAux acc rest else firstOccAux (acc ++ [k]) rest

/-- The distinct keys of a scan in first-seen order. -/
def firstOccurrences (l : List Str) : List Str := firstOccAux [] l

theorem lookupCount_bump (c : List (Str × Nat)) (k s : Str) :
    lookupCount (bump c k) s = lookupCount c s + (if k = s then 1 else 0) := by
  induction c with
  | nil =>
    show (if k = s then 1 else lookupCount [] s) = 0 + (if k = s then 1 else 0)
    by_cases h : k = s
    · rw [if_pos h, if_pos h]
    · rw [if_neg h, if_neg h]
      rfl
  | cons p t ih =>
    obtain ⟨k', n⟩ := p
    show lookupCount (if k' = k then (k', n + 1) :: t else (k', n) :: bump t k) s = _
    by_cases h1 : k' = k
    · rw [if_pos h1]
      show (if k' = s then n + 1 else lookupCount t s) =
        (if k' = s then n else lookupCount t s) + _
      by_cases h2 : k' = s
      · rw [if_pos h2, if_pos h2, if_pos (h1 ▸ h2)]
      · rw [if_neg h2, if_neg h2, if_neg (fun hk => h2 (h1 ▸ hk)), Nat.add_zero]
    · rw [if_neg h1]
      show (if k' = s then n else lookupCount (bump t k) s) =
        (if k' = s then n else lookupCount t s) + _
      by_cases h2 : k' = s
      · rw [if_pos h2, if_pos h2, if_neg (fun hk => h1 (h2.trans hk.symm)), Nat.add_zero]
      · rw [if_neg h2, if_neg h2, ih]

theorem lookupCount_foldl (ks : List Str) (c : List (Str × Nat)) (s : Str) :
    lookupCount (ks.foldl bump c) s = lookupCount c s + ks.count s := by
  induction ks generalizing c with
  | nil => rfl
  | cons k rest ih =>
    show lookupCount (rest.foldl bump (bump c k)) s = _
    rw [ih, lookupCount_bump, List.count_cons]
    by_cases h : k = s
    · subst h
      simp
      omega
    · have h2 : (k == s) = false := beq_eq_false_iff_ne.mpr h
      rw [if_neg h, h2]
      simp

theorem map_fst_bump (c : List (Str × Nat)) (k : Str) :
    (bump c k).map Prod.fst =
      if k ∈ c.map Prod.fst then c.map Prod.fst else c.map Prod.fst ++ [k] := by
  induction c with
  | nil => simp [bump]
  | cons p t ih =>
    obtain ⟨k', n⟩ := p
    by_cases h1 : k' = k
    · have hb : bump ((k', n) :: t) k = (k', n + 1) :: t := by
        unfold bump
        rw [if_pos h1]
      have hm : k ∈ ((k', n) :: t).map Prod.fst := by
        rw [List.map_cons]
        exact List.mem_cons.mpr (Or.inl h1.symm)
      rw [hb, if_pos hm, List.map_cons, List.map_cons]
    · have hb : bump ((k', n) :: t) k = (k', n) :: bump t k := by
        simp only [bump]
        rw [if_neg h1]
      rw [hb, List.map_cons, ih]
      by_cases h2 : k ∈ t.map Prod.fst
      · rw [if_pos h2, if_pos (by
          rw [List.map_cons]
          exact List.mem_cons_of_mem _ h2), List.map_cons]
      · rw [if_neg h2, if_neg (by
          rw [List.map_cons]
          intro hm
          rcases List.mem_cons.mp hm with he | hm'
          · exact h1 he.symm
          · exact h2 hm'), List.map_cons]
        rfl

theorem map_fst_foldl (ks : List Str) (c : List (Str × Nat)) :
    (ks.foldl bump c).map Prod.fst = firstOccAux (c.map Prod.fst) ks := by
  induction ks generalizing c with
  | nil => rfl
  | cons k rest ih =>
    show (rest.foldl bump (bump c k)).map Prod.fst = _
    have e : firstOccAux (c.map Prod.fst) (k :: rest) =
        if k ∈ c.map Prod.fst then firstOccAux (c.map Prod.fst) rest
        else firstOccAux (c.map Prod.fst ++ [k]) rest := rfl
    rw [ih, map_fst_bump, e]
    by_cases h : k ∈ c.map Prod.fst
    · rw [if_pos h, if_pos h]
    · rw [if_neg h, if_neg h]

theorem firstOccAux_nodup (l : List Str) (acc : List Str) (h : acc.Nodup) :
    (firstOccAux acc l).Nodup := by
  induction l generalizing acc with
  | nil => exact h
  | cons k rest ih =>
    unfold firstOccAux
    by_cases hk : k ∈ acc
    · rw [if_pos hk]
      exact ih acc h
    · rw [if_neg hk]
      refine ih _ ?_
      rw [List.nodup_append]
      exact ⟨h, List.nodup_singleton k,
        fun a ha hb => hk ((List.mem_singleton.mp hb) ▸ ha)⟩

theorem lookupCount_mem {c : List (Str × Nat)} (hnd : (c.map Prod.fst).Nodup)
    {s : Str} {n : Nat} (hm : (s, n) ∈ c) : lookupCount c s = n := by
  induction c with
  | nil => cases hm
  | cons p t ih =>
    obtain ⟨k', n'⟩ := p
    rw [List.map_cons, List.nodup_cons] at hnd
    rcases List.mem_cons.mp hm with he | hm'
    · injection he.symm with e1 e2
      subst e1
      subst e2
      show (if k' = k' then n' else lookupCount t k') = n'
      rw [if_pos rfl]
    · show (if k' = s then n' else lookupCount t s) = n
      have hs : s ∈ t.map Prod.fst := List.mem_map_of_mem Prod.fst hm'
      rw [if_neg (fun he => hnd.1 (by rw [he]; exact hs))]
      exact ih hnd.2 hm'

theorem analyzeLoop_eq (ts : List Json) (cc fc cc' fc' : List (Str × Nat))
    (h : analyzeLoop ts cc fc = Except.ok (cc', fc')) :
    cc' = (contentKeys ts).foldl bump cc ∧ fc' = (factorKeys ts).foldl bump fc := by
  induction ts generalizing cc fc with
  | nil =>
    injection h with h
    injection h with h1 h2
    exact ⟨h1.symm, h2.symm⟩
  | cons t rest ih =>
    unfold analyzeLoop at h
    cases hc : getStr t "c".data with
    | error e =>
      rw [hc] at h
      cases h
    | ok c =>
      rw [hc] at h
      dsimp only at h
      cases hf : getFactors t with
      | error e =>
        rw [hf] at h
        cases h
      | ok factors =>
        rw [hf] at h
        dsimp only at h
        obtain ⟨h1, h2⟩ := ih _ _ h
        have ec : contentKeys (t :: rest) = pyStrip c :: contentKeys rest := by
          unfold contentKeys
          rw [List.filterMap_cons, hc]
          rfl
        have ef : factorKeys (t :: rest) = factors.map pyStrip ++ factorKeys rest := by
          unfold factorKeys
          rw [List.flatMap_cons, hf]
          rfl
        constructor
        · rw [ec, h1]
          rfl
        · rw [ef, h2, List.foldl_append, List.foldl_map]

/-- C7: on a well-formed Short Aggregate, the analyzer's content counter
maps each stripped content string to the number of Short Records carrying
it, the factor counter maps each stripped factor to its total number of
occurrences across all records' factor lists, counter keys sit in
first-seen order, every entry of the two mappings produced by
`save_results` carries exactly that count, both result mappings are
non-increasing in count, and entries with equal counts keep the order in
which their key was first seen during counting. -/
theorem c7_frequency_counts :
    ∀ thoughts cc fc, analyze_file (Json.arr thoughts) = Except.ok (cc, fc) →
      (∀ s : Str, lookupCount cc s = (contentKeys thoughts).count s) ∧
      (∀ s : Str, lookupCount fc s = (factorKeys thoughts).count s) ∧
      cc.map Prod.fst = firstOccurrences (contentKeys thoughts) ∧
      fc.map Prod.fst = firstOccurrences (factorKeys thoughts) ∧
      (∀ s n, ((s, n) ∈ (save_results cc fc).1 ↔ (s, n) ∈ cc) ∧
        ((s, n) ∈ cc → n = (contentKeys thoughts).count s)) ∧
      (∀ s n, ((s, n) ∈ (save_results cc fc).2 ↔ (s, n) ∈ fc) ∧
        ((s, n) ∈ fc → n = (factorKeys thoughts).count s)) ∧
      (save_results cc fc).1.Pairwise (fun a b => b.2 ≤ a.2) ∧
      (save_results cc fc).2.Pairwise (fun a b => b.2 ≤ a.2) ∧
      (∀ n : Nat, (save_results cc fc).1.filter (fun p => p.2 = n) =
        cc.filter (fun p => p.2 = n)) ∧
      (∀ n : Nat, (save_results cc fc).2.filter (fun p => p.2 = n) =
        fc.filter (fun p => p.2 = n)) := by
  intro thoughts cc fc h
  have hloop : analyzeLoop thoughts [] [] = Except.ok (cc, fc) := h
  obtain ⟨h1, h2⟩ := analyzeLoop_eq thoughts [] [] cc fc hloop
  have hcc : ∀ s, lookupCount cc s = (contentKeys thoughts).count s := by
    intro s
    rw [h1, lookupCount_foldl]
    exact Nat.zero_add _
  have hfc : ∀ s, lookupCount fc s = (factorKeys thoughts).count s := by
    intro s
    rw [h2, lookupCount_foldl]
    exact Nat.zero_add _
  have hkc : cc.map Prod.fst = firstOccurrences (contentKeys thoughts) := by
    rw [h1, map_fst_foldl]
    rfl
  have hkf : fc.map Prod.fst = firstOccurrences (factorKeys thoughts) := by
    rw [h2, map_fst_foldl]
    rfl
  have hndc : (cc.map Prod.fst).Nodup := by
    rw [hkc]
    exact firstOccAux_nodup _ [] List.nodup_nil
  have hndf : (fc.map Prod.fst).Nodup := by
    rw [hkf]
    exact firstOccAux_nodup _ [] List.nodup_nil
  have hdesc : ∀ c : List (Str × Nat),
      (sortCounts c).Pairwise (fun a b => b.2 ≤ a.2) := by
    intro c
    refine (pairwise_sortK _ c).imp ?_
    intro a b hab
    have : (b.2 : Int) ≤ (a.2 : Int) := by
      have := neg_le_neg_iff.mp hab
      exact this
    exact_mod_cast this
  have hstab : ∀ (c : List (Str × Nat)) (n : Nat),
      (sortCounts c).filter (fun p => p.2 = n) = c.filter (fun p => p.2 = n) := by
    intro c n
    refine filter_sortK _ _ c ?_
    intro a b ha hb
    have ha' : a.2 = n := of_decide_eq_true ha
    have hb' : b.2 = n := of_decide_eq_true hb
    rw [ha', hb']
  refine ⟨hcc, hfc, hkc, hkf, ?_, ?_, hdesc cc, hdesc fc, hstab cc, hstab fc⟩
  · intro s n
    refine ⟨mem_sortK _ _ _, fun hm => ?_⟩
    rw [← hcc s]
    exact (lookupCount_mem hndc hm).symm
  · intro s n
    refine ⟨mem_sortK _ _ _, fun hm => ?_⟩
    rw [← hfc s]
    exact (lookupCount_mem hndf hm).symm

/-- The three Short Records of the C7 witness. -/
def tC7 : List Json := [
  .obj [("c".data, .str " a ".data), ("r".data, .arr [.str "x".data, .str "y".data])],
  .obj [("c".data, .str "b".data), ("r".data, .arr [.str "x".data])],
  .obj [("c".data, .str "a".data), ("r".data, .arr [])]]

/-- C7 witness: the counting statement applied at a concrete three-record
Short Aggregate with a duplicated content and a duplicated factor. -/
theorem c7_witness :
    ∃ cc fc, analyze_file (Json.arr tC7) = Except.ok (cc, fc) ∧
      ((∀ s : Str, lookupCount cc s = (contentKeys tC7).count s) ∧
       (∀ s : Str, lookupCount fc s = (factorKeys tC7).count s) ∧
       cc.map Prod.fst = firstOccurrences (contentKeys tC7) ∧
       fc.map Prod.fst = firstOccurrences (factorKeys tC7) ∧
       (∀ s n, ((s, n) ∈ (save_results cc fc).1 ↔ (s, n) ∈ cc) ∧
         ((s, n) ∈ cc → n = (contentKeys tC7).count s)) ∧
       (∀ s n, ((s, n) ∈ (save_results cc fc).2 ↔ (s, n) ∈ fc) ∧
         ((s, n) ∈ fc → n = (factorKeys tC7).count s)) ∧
       (save_results cc fc).1.Pairwise (fun a b => b.2 ≤ a.2) ∧
       (save_results cc fc).2.Pairwise (fun a b => b.2 ≤ a.2) ∧
       (∀ n : Nat, (save_results cc fc).1.filter (fun p => p.2 = n) =
         cc.filter (fun p => p.2 = n)) ∧
       (∀ n : Nat, (save_results cc fc).2.filter (fun p => p.2 = n) =
         fc.filter (fun p => p.2 = n))) :=
  ⟨_, _, rfl, c7_frequency_counts tC7 _ _ rfl⟩

end CreaturePlans
